import Mathlib

/-!
Verification of the ws-workshop chat server (`server/src/index.ts`, shared
`types.ts`, and the React client) against its natural-language specification.

The server is shallowly embedded: the mutable `rooms` map and the per-socket
`username` / `room` fields become an explicit `ServerState`; the WebSocket
event handlers (`connection`, `message`, `close`) become a `step` function on
that state that also returns the list of frames written to sockets.  JavaScript
string primitives used by the code (`trim`, `toLowerCase`,
`replace(/\s+/g, "-")`, `localeCompare`) are modelled at the character-list
level.
-/

namespace WsWorkshop

/-! ## JavaScript string primitives -/

/-- The character class `\s` of JavaScript regular expressions, which is also
exactly the set of characters removed by `String.prototype.trim`
(ECMAScript WhiteSpace ∪ LineTerminator). -/
def jsIsWs (c : Char) : Bool :=
  c == ' ' || c == '\t' || c == '\n' || c.toNat == 11 || c.toNat == 12 || c == '\r' ||
  c.toNat == 0xa0 || c.toNat == 0x1680 || (0x2000 ≤ c.toNat && c.toNat ≤ 0x200a) ||
  c.toNat == 0x2028 || c.toNat == 0x2029 || c.toNat == 0x202f || c.toNat == 0x205f ||
  c.toNat == 0x3000 || c.toNat == 0xfeff

/-- `String.prototype.toLowerCase`, restricted to the ASCII range exercised by
this development (non-ASCII characters are left unchanged); this is the same
mapping as core `Char.toLower`. -/
def jsLowerChar (c : Char) : Char :=
  if 65 ≤ c.toNat ∧ c.toNat ≤ 90 then Char.ofNat (c.toNat + 32) else c

/-- `String.prototype.trim` on a character list: drop leading and trailing
whitespace. -/
def trimL (l : List Char) : List Char :=
  ((l.dropWhile jsIsWs).reverse.dropWhile jsIsWs).reverse

/-- `String.prototype.trim`. -/
def jsTrim (s : String) : String := ⟨trimL s.data⟩

/-- Worker for `replace(/\s+/g, "-")`: the boolean records whether the
previous character was whitespace (so that a maximal whitespace run is
replaced by a single hyphen). -/
def collapseWsAux : Bool → List Char → List Char
  | _, [] => []
  | prevWs, c :: rest =>
    if jsIsWs c then
      if prevWs then collapseWsAux true rest
      else '-' :: collapseWsAux true rest
    else c :: collapseWsAux false rest

/-- `String.prototype.replace(/\s+/g, "-")` on a character list. -/
def collapseWs (l : List Char) : List Char := collapseWsAux false l

/-! ## Room-name normalization (server and client copies)

`normalizeRoomName` in `server/src/index.ts` returns `string | null`;
the identically-named client function returns `""` instead of `null` for the
invalid case.  Both run `raw.trim().toLowerCase().replace(/\s+/g, "-")` and
then prefix `#` unless already present.  The TypeScript functions take the
field `payload.room`, which can be `undefined` at runtime; that case (where
`.trim()` throws) is handled at the dispatch layer below, so these Lean
functions take an actual string. -/

/-- `server/src/index.ts` `normalizeRoomName`, on character lists
(`compact.startsWith("#")` is the check on the head character). -/
def normalizeRoomNameL (l : List Char) : Option (List Char) :=
  let compact := collapseWs ((trimL l).map jsLowerChar)
  if compact = [] then none
  else if compact.head? = some '#' then some compact
  else some ('#' :: compact)

/-- `server/src/index.ts` `normalizeRoomName : string -> string | null`. -/
def normalizeRoomName (rawRoom : String) : Option String :=
  (normalizeRoomNameL rawRoom.data).map (fun l => (⟨l⟩ : String))

/-- The client copy of `normalizeRoomName` (React `App.tsx`), which returns
`""` for the invalid case, on character lists. -/
def clientNormalizeRoomNameL (l : List Char) : List Char :=
  let compact := collapseWs ((trimL l).map jsLowerChar)
  if compact = [] then []
  else if compact.head? = some '#' then compact
  else '#' :: compact

/-- The client copy of `normalizeRoomName : string -> string`. -/
def clientNormalizeRoomName (raw : String) : String :=
  ⟨clientNormalizeRoomNameL raw.data⟩

/-! ## `String.prototype.localeCompare` model

The server sorts room lists and user lists with
`.sort((a, b) => a.localeCompare(b))`.  Under Node's default (ICU root)
collation, ASCII letters compare case-insensitively at primary strength and
ties are broken with lower case before upper case; this differs from plain
code-point order (for example `"a"` sorts before `"B"`).  We model that
comparator as a lexicographic comparison of a primary key (the lower-cased
string) and a tie-break key (the string with ASCII case swapped, so that
lower case wins ties). -/

/-- Swap the case of an ASCII letter (identity elsewhere): the tie-break key
making lower case sort before upper case. -/
def caseFlip (c : Char) : Char :=
  if 97 ≤ c.toNat ∧ c.toNat ≤ 122 then Char.ofNat (c.toNat - 32)
  else if 65 ≤ c.toNat ∧ c.toNat ≤ 90 then Char.ofNat (c.toNat + 32)
  else c

/-- The primary collation key: the lower-cased character list. -/
def localeKey1 (s : String) : List Char := s.data.map jsLowerChar

/-- The tie-break collation key: the case-swapped character list (so that
lower case wins ties against upper case). -/
def localeKey2 (s : String) : List Char := s.data.map caseFlip

/-- `a.localeCompare(b) <= 0` in the model described above: primary
lexicographic comparison of the lower-cased lists, ties broken by the
case-swapped lists. -/
def localeLe (a b : String) : Prop :=
  localeKey1 a < localeKey1 b ∨
    (localeKey1 a = localeKey1 b ∧ ¬ localeKey2 b < localeKey2 a)

instance : DecidableRel localeLe := fun a b =>
  inferInstanceAs (Decidable (localeKey1 a < localeKey1 b ∨
    (localeKey1 a = localeKey1 b ∧ ¬ localeKey2 b < localeKey2 a)))

instance : IsTotal String localeLe :=
  ⟨fun a b => by
    unfold localeLe
    rcases lt_trichotomy (localeKey1 a) (localeKey1 b) with h | h | h
    · exact Or.inl (Or.inl h)
    · rcases lt_trichotomy (localeKey2 a) (localeKey2 b) with h2 | h2 | h2
      · exact Or.inl (Or.inr ⟨h, lt_asymm h2⟩)
      · exact Or.inl (Or.inr ⟨h, by rw [h2]; exact lt_irrefl _⟩)
      · exact Or.inr (Or.inr ⟨h.symm, lt_asymm h2⟩)
    · exact Or.inr (Or.inl h)⟩

instance : IsTrans String localeLe :=
  ⟨fun a b c hab hbc => by
    unfold localeLe at *
    rcases hab with hab | ⟨hab, hab2⟩
    · rcases hbc with hbc | ⟨hbc, _⟩
      · exact Or.inl (hab.trans hbc)
      · exact Or.inl (hbc ▸ hab)
    · rcases hbc with hbc | ⟨hbc, hbc2⟩
      · exact Or.inl (by rw [hab]; exact hbc)
      · refine Or.inr ⟨hab.trans hbc, ?_⟩
        have h1 : localeKey2 a ≤ localeKey2 b := not_lt.mp hab2
        have h2 : localeKey2 b ≤ localeKey2 c := not_lt.mp hbc2
        exact not_lt.mpr (h1.trans h2)⟩

/-! ## Association lists

`rooms : Map<string, Set<WebSocket>>` and the server's client set are modelled
as insertion-ordered association lists (JavaScript `Map` and `Set` iterate in
insertion order).  `aset` is `Map.prototype.set` (update in place, else
append); `adrop` is `Map.prototype.delete`. -/

/-- First-match lookup in an association list (`Map.prototype.get`). -/
def alookup {α β : Type} [DecidableEq α] : List (α × β) → α → Option β
  | [], _ => none
  | (k, v) :: rest, k' => if k' = k then some v else alookup rest k'

/-- `Map.prototype.set`: replace the entry in place if the key is present,
otherwise append a new entry. -/
def aset {α β : Type} [DecidableEq α] : List (α × β) → α → β → List (α × β)
  | [], k, v => [(k, v)]
  | (k', v') :: rest, k, v =>
    if k = k' then (k, v) :: rest else (k', v') :: aset rest k v

/-- `Map.prototype.delete`: remove the entry for the key. -/
def adrop {α β : Type} [DecidableEq α] : List (α × β) → α → List (α × β)
  | [], _ => []
  | (k', v') :: rest, k => if k = k' then rest else (k', v') :: adrop rest k

/-! ## Wire messages

Transcriptions of the `ClientMessage` and `ServerMessage` unions of
`shared/types.ts`.  On the inbound side the payload fields are `Option`s:
`JSON.parse` of a frame such as `{"type":"chat"}` produces an object whose
`text` property is `undefined` even though the TypeScript cast pretends it is
a `string`; `none` models an absent (or non-string) field. -/

abbrev Sid := Nat

/-- A parsed inbound frame that carried a recognized-shape `type` string.
`other` covers any non-empty `type` not otherwise listed (it hits the
`default` arm of the dispatch switch, as do `set-nick` and `leave`, which the
server never cases on). -/
inductive ParsedMessage : Type
  | joinRoom (room : Option String)
  | leaveRoom (room : Option String)
  | chat (text : Option String)
  | typing
  | setNick (nick : Option String)
  | leave
  | other (ty : String)
deriving DecidableEq, Repr

/-- The `ServerMessage` union of `shared/types.ts`. -/
inductive ServerMessage : Type
  | chat (nick text : String) (ts : Nat)
  | system (text : String)
  | userList (room : String) (users : List String)
  | roomList (rooms : List String)
  | roomCurrent (room : String)
  | typing (nick : String)
deriving DecidableEq, Repr

/-- An observable transport action: a frame written to a socket, or a
`WebSocket#close` with a close code and reason. -/
inductive Out : Type
  | send (sid : Sid) (msg : ServerMessage)
  | close (sid : Sid) (code : Nat) (reason : String)
deriving DecidableEq, Repr

/-! ## Server state -/

/-- The two fields the server attaches to each accepted socket
(`type ChatSocket = WebSocket & { username: string; room: string }`). -/
structure ChatSocket : Type where
  username : String
  room : String
deriving DecidableEq, Repr

/-- The mutable server state: `wss.clients` with the per-socket fields, and
the `rooms` map.  Closed sockets are removed from `sockets`, so
`readyState === WebSocket.OPEN` is modelled as presence in `sockets`. -/
structure ServerState : Type where
  sockets : List (Sid × ChatSocket)
  rooms : List (String × List Sid)
deriving DecidableEq, Repr

def DEFAULT_ROOM : String := "#general"

/-- The state at server start: `rooms` holds only the default room. -/
def initialState : ServerState := { sockets := [], rooms := [(DEFAULT_ROOM, [])] }

/-- `ws.readyState === WebSocket.OPEN` (closed sockets have been removed from
the registry in this single-threaded model). -/
def isOpen (st : ServerState) (sid : Sid) : Bool :=
  (alookup st.sockets sid).isSome

/-- `sendToClient`: write iff the socket is still open. -/
def sendToClient (st : ServerState) (sid : Sid) (msg : ServerMessage) : List Out :=
  if isOpen st sid then [.send sid msg] else []

/-- `ensureRoom`: return the state unchanged if the room exists, otherwise
register an empty member set for it. -/
def ensureRoom (st : ServerState) (room : String) : ServerState :=
  match alookup st.rooms room with
  | some _ => st
  | none => { st with rooms := aset st.rooms room [] }

/-- `ensureRoom(room).add(socket)`: `Set.prototype.add` on the (created if
needed) member set. -/
def roomAdd (st : ServerState) (room : String) (sid : Sid) : ServerState :=
  let ms := (alookup st.rooms room).getD []
  { st with rooms := aset st.rooms room (if sid ∈ ms then ms else ms ++ [sid]) }

/-- `ensureRoom(room).delete(socket)` (used by `moveSocketToRoom` on the
previous room). -/
def roomErase (st : ServerState) (room : String) (sid : Sid) : ServerState :=
  let ms := (alookup st.rooms room).getD []
  { st with rooms := aset st.rooms room (ms.erase sid) }

/-- The guarded delete of the `close` handler:
`const members = rooms.get(room); if (members) { members.delete(socket); }`. -/
def roomEraseIfPresent (st : ServerState) (room : String) (sid : Sid) : ServerState :=
  match alookup st.rooms room with
  | none => st
  | some ms => { st with rooms := aset st.rooms room (ms.erase sid) }

/-- `removeRoomIfEmpty`: delete the room unless it is the default room or
still has members. -/
def removeRoomIfEmpty (st : ServerState) (room : String) : ServerState :=
  if room = DEFAULT_ROOM then st
  else
    match alookup st.rooms room with
    | some [] => { st with rooms := adrop st.rooms room }
    | _ => st

/-- `getRoomsList`: room names sorted with `localeCompare`, with the default
room unshifted in if (impossibly) missing. -/
def getRoomsList (st : ServerState) : List String :=
  let list := List.insertionSort localeLe (st.rooms.map Prod.fst)
  if DEFAULT_ROOM ∈ list then list else DEFAULT_ROOM :: list

/-- `broadcastRoomList`: send the room list to every open client. -/
def broadcastRoomList (st : ServerState) : List Out :=
  st.sockets.filterMap fun p =>
    if isOpen st p.1 then some (.send p.1 (.roomList (getRoomsList st))) else none

/-- `broadcastToRoom`: send to every open member of the room except an
optional excluded socket. -/
def broadcastToRoom (st : ServerState) (room : String) (msg : ServerMessage)
    (exclude : Option Sid) : List Out :=
  match alookup st.rooms room with
  | none => []
  | some members =>
    members.filterMap fun m =>
      if exclude ≠ some m ∧ isOpen st m then some (.send m msg) else none

/-- `getUsersForRoom`: the members' usernames, filtered by `Boolean` (dropping
empty or missing identities), sorted with `localeCompare`. -/
def getUsersForRoom (st : ServerState) (room : String) : List String :=
  match alookup st.rooms room with
  | none => []
  | some members =>
    List.insertionSort localeLe
      (((members.filterMap fun m => alookup st.sockets m).map ChatSocket.username).filter
        fun u => u ≠ "")

/-- `broadcastUserList`. -/
def broadcastUserList (st : ServerState) (room : String) : List Out :=
  broadcastToRoom st room (.userList room (getUsersForRoom st room)) none

/-- `sendRoomState`: `room-current` then `user-list` for the socket's current
room, to that socket. -/
def sendRoomState (st : ServerState) (sid : Sid) : List Out :=
  match alookup st.sockets sid with
  | none => []
  | some sock =>
    sendToClient st sid (.roomCurrent sock.room) ++
      sendToClient st sid (.userList sock.room (getUsersForRoom st sock.room))

/-- `socket.room = nextRoom`. -/
def setSocketRoom (st : ServerState) (sid : Sid) (room : String) : ServerState :=
  match alookup st.sockets sid with
  | none => st
  | some sock => { st with sockets := aset st.sockets sid { sock with room := room } }

/-- `moveSocketToRoom`, returning the new state and the frames written, in
program order: leave notice and user list to the old room (read after the
deletion, before `removeRoomIfEmpty`), then room state to the mover, join
notice and user list to the new room, and finally the global room list. -/
def moveSocketToRoom (st : ServerState) (sid : Sid) (nextRoom : String) :
    ServerState × List Out :=
  match alookup st.sockets sid with
  | none => (st, [])
  | some sock =>
    let previousRoom := sock.room
    if previousRoom = nextRoom then (st, sendRoomState st sid)
    else
      let st2 := roomErase (ensureRoom st previousRoom) previousRoom sid
      let out1 := broadcastToRoom st2 previousRoom
        (.system s!"{sock.username} a quitte {previousRoom}") none
      let out2 := broadcastUserList st2 previousRoom
      let st3 := removeRoomIfEmpty st2 previousRoom
      let st4 := roomAdd (ensureRoom st3 nextRoom) nextRoom sid
      let st5 := setSocketRoom st4 sid nextRoom
      let out3 := sendRoomState st5 sid
      let out4 := broadcastToRoom st5 nextRoom
        (.system s!"{sock.username} a rejoint {nextRoom}") none
      let out5 := broadcastUserList st5 nextRoom
      let out6 := broadcastRoomList st5
      (st5, out1 ++ out2 ++ out3 ++ out4 ++ out5 ++ out6)

/-! ## Message dispatch -/

/-- Result of one run of the `ws.on("message")` handler.  `thrown` records an
uncaught JavaScript exception escaping the handler (the server installs no
try/catch around the dispatch switch, so such an exception is fatal to the
Node process); it carries the state and frames produced before the throw. -/
inductive HandlerResult : Type
  | ok (st : ServerState) (out : List Out)
  | thrown (st : ServerState) (out : List Out)
deriving DecidableEq, Repr

/-- The body of `ws.on("message")`.  `frame = none` models
`parseClientMessage` returning `null` (unparseable JSON) or a falsy
`payload.type` (absent or empty discriminator).  `now` is `Date.now()`.
The two `.thrown` branches are where the code evaluates
`payload.text.trim()` (case `"chat"`) or `payload.room.trim()` (inside
`normalizeRoomName`, cases `"join-room"` / `"leave-room"`) on an `undefined`
field, raising an uncaught `TypeError` before any state change or send. -/
def handleMessage (st : ServerState) (sid : Sid) (now : Nat)
    (frame : Option ParsedMessage) : HandlerResult :=
  match frame with
  | none => .ok st (sendToClient st sid (.system "Message invalide."))
  | some payload =>
    match payload with
    | .joinRoom roomField =>
      match roomField with
      | none => .thrown st []
      | some raw =>
        match normalizeRoomName raw with
        | none => .ok st (sendToClient st sid (.system "Nom de room invalide."))
        | some nextRoom =>
          let r := moveSocketToRoom st sid nextRoom
          .ok r.1 r.2
    | .leaveRoom roomField =>
      match roomField with
      | none => .thrown st []
      | some raw =>
        match alookup st.sockets sid with
        | none => .ok st []
        | some sock =>
          match normalizeRoomName raw with
          | none => .ok st []
          | some room =>
            if room ≠ sock.room then .ok st []
            else if sock.room = DEFAULT_ROOM then
              .ok st (sendToClient st sid (.system "Vous etes deja dans #general."))
            else
              let r := moveSocketToRoom st sid DEFAULT_ROOM
              .ok r.1 r.2
    | .chat textField =>
      match textField with
      | none => .thrown st []
      | some rawText =>
        let text := jsTrim rawText
        if text = "" then .ok st []
        else
          match alookup st.sockets sid with
          | none => .ok st []
          | some sock =>
            .ok st (broadcastToRoom st sock.room (.chat sock.username text now) none)
    | .typing =>
      match alookup st.sockets sid with
      | none => .ok st []
      | some sock =>
        .ok st (broadcastToRoom st sock.room (.typing sock.username) (some sid))
    | .setNick _ => .ok st (sendToClient st sid (.system "Type non supporte."))
    | .leave => .ok st (sendToClient st sid (.system "Type non supporte."))
    | .other _ => .ok st (sendToClient st sid (.system "Type non supporte."))

/-! ## Token verification and events -/

/-- The outcome of `jwt.verify(token, SECRET)` (an external library call):
it throws for an invalid or expired token, or returns a string payload, or a
decoded object whose `username` property may be absent or empty. -/
inductive JwtOutcome : Type
  | throws
  | str
  | obj (username : Option String)
deriving DecidableEq, Repr

/-- `verifyToken`: `null` for a missing token, a thrown verification, a
non-object payload, or a falsy (absent or empty) `username`. -/
def verifyToken (token : Option JwtOutcome) : Option String :=
  match token with
  | none => none
  | some .throws => none
  | some .str => none
  | some (.obj none) => none
  | some (.obj (some u)) => if u = "" then none else some u

/-- An externally triggered event: a WebSocket connection attempt (carrying
the `jwt.verify` outcome for its query-string token), an inbound text frame
on a socket, or a transport close. -/
inductive Event : Type
  | connect (sid : Sid) (token : Option JwtOutcome)
  | message (sid : Sid) (now : Nat) (frame : Option ParsedMessage)
  | close (sid : Sid)
deriving DecidableEq, Repr

/-- One event-loop turn of the server.  The `connect` branch follows
`wss.on("connection")` in program order: reject with close code 4001 on a
failed verification; otherwise register the socket in the default room,
broadcast the join notice and user list to that room (which already includes
the new socket), then send the welcome, `room-current`, `room-list` and
`user-list` snapshot to the new socket and broadcast the room list.  The
`message` branch runs `handleMessage` (a thrown handler leaves the state it
had reached).  The `close` branch removes the socket from the registry and
its room, broadcasts the leave notice and user list, prunes the room, and
broadcasts the room list.  Events for unknown sockets, and a `connect` for an
already-registered id, are no-ops (fresh sockets only). -/
def step (st : ServerState) (e : Event) : ServerState × List Out :=
  match e with
  | .connect sid token =>
    match verifyToken token with
    | none => (st, [.close sid 4001 "Unauthorized"])
    | some username =>
      if (alookup st.sockets sid).isSome then (st, [])
      else
        let st1 : ServerState :=
          { st with sockets := st.sockets ++ [(sid, ⟨username, DEFAULT_ROOM⟩)] }
        let st2 := roomAdd (ensureRoom st1 DEFAULT_ROOM) DEFAULT_ROOM sid
        let out1 := broadcastToRoom st2 DEFAULT_ROOM
          (.system s!"{username} a rejoint {DEFAULT_ROOM}") none
        let out2 := broadcastUserList st2 DEFAULT_ROOM
        let out3 := sendToClient st2 sid (.system s!"Connexion etablie pour {username}.")
        let out4 := sendToClient st2 sid (.roomCurrent DEFAULT_ROOM)
        let out5 := sendToClient st2 sid (.roomList (getRoomsList st2))
        let out6 := sendToClient st2 sid (.userList DEFAULT_ROOM (getUsersForRoom st2 DEFAULT_ROOM))
        let out7 := broadcastRoomList st2
        (st2, out1 ++ out2 ++ out3 ++ out4 ++ out5 ++ out6 ++ out7)
  | .message sid now frame =>
    if (alookup st.sockets sid).isSome then
      match handleMessage st sid now frame with
      | .ok st2 out => (st2, out)
      | .thrown st2 out => (st2, out)
    else (st, [])
  | .close sid =>
    match alookup st.sockets sid with
    | none => (st, [])
    | some sock =>
      let st1 : ServerState := { st with sockets := adrop st.sockets sid }
      let st2 := roomEraseIfPresent st1 sock.room sid
      let out1 := broadcastToRoom st2 sock.room
        (.system s!"{sock.username} a quitte {sock.room}") none
      let out2 := broadcastUserList st2 sock.room
      let st3 := removeRoomIfEmpty st2 sock.room
      let out3 := broadcastRoomList st3
      (st3, out1 ++ out2 ++ out3)

/-- The server states reachable from startup by any event sequence. -/
inductive Reachable : ServerState → Prop
  | init : Reachable initialState
  | step {st : ServerState} (e : Event) : Reachable st → Reachable (step st e).1

/-- The frames delivered to one socket, in order. -/
def sentTo (outs : List Out) (sid : Sid) : List ServerMessage :=
  outs.filterMap fun o =>
    match o with
    | .send i m => if i = sid then some m else none
    | .close _ _ _ => none

/-- The `room-list` payloads among a batch of writes. -/
def roomListPayloads (outs : List Out) : List (List String) :=
  outs.filterMap fun o =>
    match o with
    | .send _ (.roomList l) => some l
    | _ => none

/-- The state component of a handler run. -/
def handlerState : HandlerResult → ServerState
  | .ok st _ => st
  | .thrown st _ => st

/-- The frames written by a handler run. -/
def handlerOut : HandlerResult → List Out
  | .ok _ out => out
  | .thrown _ out => out

/-- Example state: one pre-authenticated connection ("Raphael", socket 0) in
the default room. -/
def ex1 : ServerState := (step initialState (.connect 0 (some (.obj (some "Raphael"))))).1

/-- Example state: two connections whose verified identities are "a"
(socket 0) and "B" (socket 1), both in the default room. -/
def exAB : ServerState :=
  (step (step initialState (.connect 0 (some (.obj (some "a"))))).1
    (.connect 1 (some (.obj (some "B"))))).1

/-! ## Lemmas about association lists -/

section ALemmas

variable {α β : Type} [DecidableEq α]

theorem alookup_aset_self (l : List (α × β)) (k : α) (v : β) :
    alookup (aset l k v) k = some v := by
  induction l with
  | nil => simp [aset, alookup]
  | cons p rest ih =>
    obtain ⟨k', v'⟩ := p
    by_cases h : k = k'
    · subst h; simp [aset, alookup]
    · simp [aset, alookup, h, ih]

theorem alookup_aset_ne (l : List (α × β)) {k k' : α} (v : β) (h : k' ≠ k) :
    alookup (aset l k v) k' = alookup l k' := by
  induction l with
  | nil => simp [aset, alookup, h]
  | cons p rest ih =>
    obtain ⟨k'', v''⟩ := p
    by_cases h2 : k = k''
    · subst h2; simp [aset, alookup, h]
    · by_cases h3 : k' = k'' <;> simp [aset, alookup, h2, h3, ih]

theorem alookup_adrop_ne (l : List (α × β)) {k k' : α} (h : k' ≠ k) :
    alookup (adrop l k) k' = alookup l k' := by
  induction l with
  | nil => simp [adrop]
  | cons p rest ih =>
    obtain ⟨k'', v''⟩ := p
    by_cases h2 : k = k''
    · subst h2; simp [adrop, alookup, h]
    · by_cases h3 : k' = k'' <;> simp [adrop, alookup, h2, h3, ih]

theorem mem_keys_iff_isSome (l : List (α × β)) (k : α) :
    k ∈ l.map Prod.fst ↔ (alookup l k).isSome := by
  induction l with
  | nil => simp [alookup]
  | cons p rest ih =>
    obtain ⟨k', v'⟩ := p
    by_cases h : k = k' <;> simp [alookup, h, ih]

theorem alookup_eq_none_iff (l : List (α × β)) (k : α) :
    alookup l k = none ↔ k ∉ l.map Prod.fst := by
  rw [mem_keys_iff_isSome, Option.isSome_iff_ne_none]; tauto

theorem alookup_adrop_self (l : List (α × β)) (k : α)
    (hnd : (l.map Prod.fst).Nodup) : alookup (adrop l k) k = none := by
  induction l with
  | nil => simp [adrop, alookup]
  | cons p rest ih =>
    obtain ⟨k', v'⟩ := p
    simp only [List.map_cons, List.nodup_cons] at hnd
    by_cases h : k = k'
    · subst h
      simpa [adrop, alookup_eq_none_iff] using hnd.1
    · simp [adrop, alookup, h, ih hnd.2]

theorem keys_aset_of_mem (l : List (α × β)) (k : α) (v : β)
    (h : (alookup l k).isSome) : (aset l k v).map Prod.fst = l.map Prod.fst := by
  induction l with
  | nil => simp [alookup] at h
  | cons p rest ih =>
    obtain ⟨k', v'⟩ := p
    by_cases h2 : k = k'
    · subst h2; simp [aset]
    · simp only [alookup, if_neg (fun hh => h2 hh)] at h
      simp [aset, h2, ih h]

theorem keys_aset_of_not_mem (l : List (α × β)) (k : α) (v : β)
    (h : alookup l k = none) : (aset l k v).map Prod.fst = l.map Prod.fst ++ [k] := by
  induction l with
  | nil => simp [aset]
  | cons p rest ih =>
    obtain ⟨k', v'⟩ := p
    by_cases h2 : k = k'
    · subst h2; simp [alookup] at h
    · simp only [alookup, if_neg (fun hh => h2 hh)] at h
      simp [aset, h2, ih h]

theorem nodup_keys_aset (l : List (α × β)) (k : α) (v : β)
    (hnd : (l.map Prod.fst).Nodup) : ((aset l k v).map Prod.fst).Nodup := by
  rcases h : alookup l k with _ | w
  · rw [keys_aset_of_not_mem l k v h]
    have : k ∉ l.map Prod.fst := (alookup_eq_none_iff l k).mp h
    simp [List.nodup_append, this, hnd]
  · rw [keys_aset_of_mem l k v (by simp [h])]; exact hnd

theorem keys_adrop_sublist (l : List (α × β)) (k : α) :
    List.Sublist ((adrop l k).map Prod.fst) (l.map Prod.fst) := by
  induction l with
  | nil => simp [adrop]
  | cons p rest ih =>
    obtain ⟨k', v'⟩ := p
    by_cases h : k = k'
    · simp only [adrop, if_pos h, List.map_cons]
      exact (List.sublist_cons_self _ _)
    · simp only [adrop, if_neg h, List.map_cons]
      exact ih.cons₂ _

theorem nodup_keys_adrop (l : List (α × β)) (k : α)
    (hnd : (l.map Prod.fst).Nodup) : ((adrop l k).map Prod.fst).Nodup :=
  (keys_adrop_sublist l k).nodup hnd

theorem alookup_append_left (l1 l2 : List (α × β)) (k : α) {v : β}
    (h : alookup l1 k = some v) : alookup (l1 ++ l2) k = some v := by
  induction l1 with
  | nil => simp [alookup] at h
  | cons p rest ih =>
    obtain ⟨k', v'⟩ := p
    by_cases h2 : k = k'
    · subst h2; simp_all [alookup]
    · simp only [alookup, if_neg (fun hh => h2 hh)] at h
      simpa [alookup, h2] using ih h

theorem alookup_append_right (l1 l2 : List (α × β)) (k : α)
    (h : alookup l1 k = none) : alookup (l1 ++ l2) k = alookup l2 k := by
  induction l1 with
  | nil => simp
  | cons p rest ih =>
    obtain ⟨k', v'⟩ := p
    by_cases h2 : k = k'
    · subst h2; simp [alookup] at h
    · simp only [alookup, if_neg (fun hh => h2 hh)] at h
      simpa [alookup, h2] using ih h

end ALemmas

/-! ## The server-state invariant -/

/-- Well-formedness of a server state: registry and room keys are duplicate
free, the default room is registered, member sets are duplicate free, room
membership and the per-socket `room` field agree (each socket is a member of
exactly the room its field names), and non-default rooms are non-empty. -/
structure WF (st : ServerState) : Prop where
  sockNodup : (st.sockets.map Prod.fst).Nodup
  roomNodup : (st.rooms.map Prod.fst).Nodup
  defaultMem : (alookup st.rooms DEFAULT_ROOM).isSome
  memNodup : ∀ r ms, alookup st.rooms r = some ms → ms.Nodup
  memberRoom : ∀ r ms m, alookup st.rooms r = some ms → m ∈ ms →
      ∃ sock, alookup st.sockets m = some sock ∧ sock.room = r
  sockRoom : ∀ sid sock, alookup st.sockets sid = some sock →
      ∃ ms, alookup st.rooms sock.room = some ms ∧ sid ∈ ms
  nonDefault : ∀ r ms, alookup st.rooms r = some ms → r ≠ DEFAULT_ROOM → ms ≠ []

theorem alookup_initial_rooms (r : String) :
    alookup initialState.rooms r = if r = DEFAULT_ROOM then some [] else none := by
  simp [initialState, alookup]

theorem wf_initial : WF initialState := by
  refine ⟨by simp [initialState], by simp [initialState],
    by rw [alookup_initial_rooms]; simp, ?_, ?_, ?_, ?_⟩
  · intro r ms h
    rw [alookup_initial_rooms] at h
    split at h
    · cases h; exact List.nodup_nil
    · cases h
  · intro r ms m h hm
    rw [alookup_initial_rooms] at h
    split at h
    · cases h; simp at hm
    · cases h
  · intro sid sock h
    simp [initialState, alookup] at h
  · intro r ms h hne
    rw [alookup_initial_rooms] at h
    split at h
    · rename_i hr; exact absurd hr hne
    · cases h

/-! State-shape lemmas for the individual room/registry operations. -/

theorem ensureRoom_sockets (st : ServerState) (r : String) :
    (ensureRoom st r).sockets = st.sockets := by
  unfold ensureRoom; split <;> rfl

theorem roomErase_sockets (st : ServerState) (r : String) (sid : Sid) :
    (roomErase st r sid).sockets = st.sockets := rfl

theorem roomEraseIfPresent_sockets (st : ServerState) (r : String) (sid : Sid) :
    (roomEraseIfPresent st r sid).sockets = st.sockets := by
  unfold roomEraseIfPresent; split <;> rfl

theorem removeRoomIfEmpty_sockets (st : ServerState) (r : String) :
    (removeRoomIfEmpty st r).sockets = st.sockets := by
  unfold removeRoomIfEmpty; split
  · rfl
  · split <;> rfl

theorem roomAdd_sockets (st : ServerState) (r : String) (sid : Sid) :
    (roomAdd st r sid).sockets = st.sockets := rfl

theorem setSocketRoom_rooms (st : ServerState) (sid : Sid) (r : String) :
    (setSocketRoom st sid r).rooms = st.rooms := by
  unfold setSocketRoom; split <;> rfl

theorem ensureRoom_of_isSome {st : ServerState} {r : String}
    (h : (alookup st.rooms r).isSome) : ensureRoom st r = st := by
  unfold ensureRoom
  rcases h2 : alookup st.rooms r with _ | ms
  · rw [h2] at h; simp at h
  · rfl

theorem roomErase_rooms {st : ServerState} {r : String} {ms : List Sid} (sid : Sid)
    (h : alookup st.rooms r = some ms) :
    (roomErase st r sid).rooms = aset st.rooms r (ms.erase sid) := by
  simp [roomErase, h]

theorem roomEraseIfPresent_rooms {st : ServerState} {r : String} {ms : List Sid} (sid : Sid)
    (h : alookup st.rooms r = some ms) :
    (roomEraseIfPresent st r sid).rooms = aset st.rooms r (ms.erase sid) := by
  simp [roomEraseIfPresent, h]

theorem removeRoomIfEmpty_default (st : ServerState) :
    removeRoomIfEmpty st DEFAULT_ROOM = st := by
  simp [removeRoomIfEmpty]

theorem removeRoomIfEmpty_drop {st : ServerState} {r : String}
    (hd : r ≠ DEFAULT_ROOM) (h : alookup st.rooms r = some []) :
    (removeRoomIfEmpty st r).rooms = adrop st.rooms r := by
  simp [removeRoomIfEmpty, hd, h]

theorem removeRoomIfEmpty_keep {st : ServerState} {r : String} {x : Sid} {xs : List Sid}
    (h : alookup st.rooms r = some (x :: xs)) :
    removeRoomIfEmpty st r = st := by
  unfold removeRoomIfEmpty
  split
  · rfl
  · rw [h]

/-- Lookup after `removeRoomIfEmpty`: the target room survives exactly when
it is the default room or still has members; other rooms are untouched. -/
theorem alookup_removeRoomIfEmpty {st : ServerState} {r : String} {ms : List Sid}
    (hnd : (st.rooms.map Prod.fst).Nodup) (h : alookup st.rooms r = some ms) (r' : String) :
    alookup (removeRoomIfEmpty st r).rooms r' =
      if r' = r then (if r = DEFAULT_ROOM ∨ ms ≠ [] then some ms else none)
      else alookup st.rooms r' := by
  by_cases hd : r = DEFAULT_ROOM
  · have hself : removeRoomIfEmpty st r = st := by rw [hd]; exact removeRoomIfEmpty_default st
    rw [hself]
    by_cases hr : r' = r
    · subst hr
      rw [if_pos rfl, if_pos (Or.inl hd)]
      exact h
    · rw [if_neg hr]
  · rcases hms : ms with _ | ⟨x, xs⟩
    · subst hms
      by_cases hr : r' = r
      · subst hr
        rw [if_pos rfl, if_neg (by simp [hd])]
        have := removeRoomIfEmpty_drop hd h
        rw [this]
        exact alookup_adrop_self st.rooms r' hnd
      · rw [if_neg hr, removeRoomIfEmpty_drop hd h]
        exact alookup_adrop_ne st.rooms hr
    · subst hms
      rw [removeRoomIfEmpty_keep h]
      by_cases hr : r' = r
      · subst hr
        rw [if_pos rfl, if_pos (Or.inr (by simp))]
        exact h
      · rw [if_neg hr]

theorem nodup_removeRoomIfEmpty {st : ServerState} (r : String)
    (hnd : (st.rooms.map Prod.fst).Nodup) :
    ((removeRoomIfEmpty st r).rooms.map Prod.fst).Nodup := by
  unfold removeRoomIfEmpty
  split
  · exact hnd
  · split
    · exact nodup_keys_adrop _ _ hnd
    · exact hnd

/-- Lookup after `ensureRoom(r)` followed by `Set#add(sid)` on `r`, when the
socket is not already a member. -/
theorem alookup_ensureAdd {st : ServerState} {r : String} {sid : Sid}
    (hsid : sid ∉ (alookup st.rooms r).getD []) (r' : String) :
    alookup (roomAdd (ensureRoom st r) r sid).rooms r' =
      if r' = r then some ((alookup st.rooms r).getD [] ++ [sid])
      else alookup st.rooms r' := by
  rcases h : alookup st.rooms r with _ | ms
  · rw [h] at hsid
    simp only [h, Option.getD_none]
    have he : (ensureRoom st r).rooms = aset st.rooms r [] := by simp [ensureRoom, h]
    have hl : alookup (ensureRoom st r).rooms r = some [] := by
      rw [he]; exact alookup_aset_self _ _ _
    by_cases hr : r' = r
    · subst hr
      simp [roomAdd, hl, alookup_aset_self]
    · simp [roomAdd, hl, he, alookup_aset_ne _ _ hr, hr]
  · rw [h] at hsid
    simp only [Option.getD_some] at hsid
    simp only [h, Option.getD_some]
    have he : ensureRoom st r = st := ensureRoom_of_isSome (by simp [h])
    by_cases hr : r' = r
    · subst hr
      simp [roomAdd, he, h, hsid, alookup_aset_self]
    · simp [roomAdd, he, h, hsid, alookup_aset_ne _ _ hr, hr]

theorem nodup_ensureAdd {st : ServerState} (r : String) (sid : Sid)
    (hnd : (st.rooms.map Prod.fst).Nodup) :
    ((roomAdd (ensureRoom st r) r sid).rooms.map Prod.fst).Nodup := by
  rcases h : alookup st.rooms r with _ | ms
  · have he : (ensureRoom st r).rooms = aset st.rooms r [] := by simp [ensureRoom, h]
    have : ((ensureRoom st r).rooms.map Prod.fst).Nodup := by
      rw [he]; exact nodup_keys_aset _ _ _ hnd
    exact nodup_keys_aset _ _ _ this
  · have he : ensureRoom st r = st := ensureRoom_of_isSome (by simp [h])
    rw [he]
    exact nodup_keys_aset _ _ _ hnd

theorem alookup_setSocketRoom {st : ServerState} {sid : Sid} {sock : ChatSocket}
    (h : alookup st.sockets sid = some sock) (r : String) (s' : Sid) :
    alookup (setSocketRoom st sid r).sockets s' =
      if s' = sid then some { sock with room := r } else alookup st.sockets s' := by
  by_cases hs : s' = sid
  · subst hs; simp [setSocketRoom, h, alookup_aset_self]
  · simp [setSocketRoom, h, alookup_aset_ne _ _ hs, hs]

theorem nodup_setSocketRoom {st : ServerState} (sid : Sid) (r : String)
    (hnd : (st.sockets.map Prod.fst).Nodup) :
    ((setSocketRoom st sid r).sockets.map Prod.fst).Nodup := by
  unfold setSocketRoom
  split
  · exact hnd
  · exact nodup_keys_aset _ _ _ hnd

/-! ## Preservation of the invariant by `moveSocketToRoom` -/

theorem moveSocketToRoom_fst {st : ServerState} {sid : Sid} {sock : ChatSocket} {next : String}
    (h : alookup st.sockets sid = some sock) (hpn : sock.room ≠ next) :
    (moveSocketToRoom st sid next).1 =
      setSocketRoom
        (roomAdd
          (ensureRoom
            (removeRoomIfEmpty (roomErase (ensureRoom st sock.room) sock.room sid) sock.room)
            next)
          next sid)
        sid next := by
  simp only [moveSocketToRoom, h]
  rw [if_neg hpn]

/-- After a cross-room move: the mover's socket record has its `room` field
set to the target, the target room's member list is the old one with the
mover appended, the source room keeps its erased member list exactly when it
is the default room or still non-empty, everything else is untouched, and
key lists stay duplicate-free. -/
theorem moveSocketToRoom_state {st : ServerState} {sid : Sid} {sock : ChatSocket}
    {next : String} {ms0 : List Sid} (hwf : WF st)
    (h : alookup st.sockets sid = some sock) (hpn : sock.room ≠ next)
    (hms0 : alookup st.rooms sock.room = some ms0) :
    (∀ s', alookup (moveSocketToRoom st sid next).1.sockets s' =
      if s' = sid then some { sock with room := next } else alookup st.sockets s') ∧
    (∀ r', alookup (moveSocketToRoom st sid next).1.rooms r' =
      if r' = next then some ((alookup st.rooms next).getD [] ++ [sid])
      else if r' = sock.room then
        (if sock.room = DEFAULT_ROOM ∨ ms0.erase sid ≠ []
         then some (ms0.erase sid) else none)
      else alookup st.rooms r') ∧
    ((moveSocketToRoom st sid next).1.sockets.map Prod.fst).Nodup ∧
    ((moveSocketToRoom st sid next).1.rooms.map Prod.fst).Nodup := by
  rw [moveSocketToRoom_fst h hpn]
  have hens : ensureRoom st sock.room = st := ensureRoom_of_isSome (by simp [hms0])
  rw [hens]
  have hErooms : (roomErase st sock.room sid).rooms = aset st.rooms sock.room (ms0.erase sid) :=
    roomErase_rooms sid hms0
  have hEnd : ((roomErase st sock.room sid).rooms.map Prod.fst).Nodup := by
    rw [hErooms]; exact nodup_keys_aset _ _ _ hwf.roomNodup
  have hElookup : ∀ r', alookup (roomErase st sock.room sid).rooms r' =
      if r' = sock.room then some (ms0.erase sid) else alookup st.rooms r' := by
    intro r'
    rw [hErooms]
    by_cases hr : r' = sock.room
    · subst hr; simp [alookup_aset_self]
    · simp [alookup_aset_ne _ _ hr, hr]
  have hEself : alookup (roomErase st sock.room sid).rooms sock.room = some (ms0.erase sid) := by
    rw [hElookup]; simp
  have hPlookup : ∀ r',
      alookup (removeRoomIfEmpty (roomErase st sock.room sid) sock.room).rooms r' =
      if r' = sock.room then
        (if sock.room = DEFAULT_ROOM ∨ ms0.erase sid ≠ []
         then some (ms0.erase sid) else none)
      else alookup st.rooms r' := by
    intro r'
    rw [alookup_removeRoomIfEmpty hEnd hEself r']
    by_cases hr : r' = sock.room
    · rw [if_pos hr, if_pos hr]
    · rw [if_neg hr, if_neg hr, hElookup r', if_neg hr]
  have hPsockets : (removeRoomIfEmpty (roomErase st sock.room sid) sock.room).sockets =
      st.sockets := by
    rw [removeRoomIfEmpty_sockets, roomErase_sockets]
  have hPnd : ((removeRoomIfEmpty (roomErase st sock.room sid) sock.room).rooms.map
      Prod.fst).Nodup := nodup_removeRoomIfEmpty _ hEnd
  have hPnext : alookup (removeRoomIfEmpty (roomErase st sock.room sid) sock.room).rooms next =
      alookup st.rooms next := by
    rw [hPlookup next, if_neg (fun hh => hpn hh.symm)]
  have hsidnext :
      sid ∉ (alookup (removeRoomIfEmpty (roomErase st sock.room sid) sock.room).rooms
        next).getD [] := by
    rw [hPnext]
    rcases hN : alookup st.rooms next with _ | ms1
    · simp
    · simp only [Option.getD_some]
      intro hmem
      obtain ⟨sock', hs', hr'⟩ := hwf.memberRoom next ms1 sid hN hmem
      rw [h] at hs'; cases hs'
      exact hpn hr'
  have hAlookup : ∀ r',
      alookup (roomAdd (ensureRoom (removeRoomIfEmpty (roomErase st sock.room sid) sock.room)
        next) next sid).rooms r' =
      if r' = next then some ((alookup st.rooms next).getD [] ++ [sid])
      else alookup (removeRoomIfEmpty (roomErase st sock.room sid) sock.room).rooms r' := by
    intro r'
    rw [alookup_ensureAdd hsidnext r']
    by_cases hr : r' = next
    · rw [if_pos hr, if_pos hr, hPnext]
    · rw [if_neg hr, if_neg hr]
  have hAnd : ((roomAdd (ensureRoom (removeRoomIfEmpty (roomErase st sock.room sid) sock.room)
      next) next sid).rooms.map Prod.fst).Nodup := nodup_ensureAdd _ _ hPnd
  have hAsockets : (roomAdd (ensureRoom (removeRoomIfEmpty (roomErase st sock.room sid)
      sock.room) next) next sid).sockets = st.sockets := by
    rw [roomAdd_sockets, ensureRoom_sockets, hPsockets]
  have hAsid : alookup (roomAdd (ensureRoom (removeRoomIfEmpty (roomErase st sock.room sid)
      sock.room) next) next sid).sockets sid = some sock := by
    rw [hAsockets]; exact h
  refine ⟨?_, ?_, ?_, ?_⟩
  · intro s'
    rw [alookup_setSocketRoom hAsid next s']
    by_cases hs : s' = sid
    · rw [if_pos hs, if_pos hs]
    · rw [if_neg hs, if_neg hs, hAsockets]
  · intro r'
    rw [setSocketRoom_rooms, hAlookup r']
    by_cases hr : r' = next
    · rw [if_pos hr, if_pos hr]
    · rw [if_neg hr, if_neg hr, hPlookup r']
  · have : ((roomAdd (ensureRoom (removeRoomIfEmpty (roomErase st sock.room sid) sock.room)
        next) next sid).sockets.map Prod.fst).Nodup := by
      rw [hAsockets]; exact hwf.sockNodup
    exact nodup_setSocketRoom _ _ this
  · rw [setSocketRoom_rooms]; exact hAnd

theorem wf_moveSocketToRoom {st : ServerState} (hwf : WF st) (sid : Sid) (next : String) :
    WF (moveSocketToRoom st sid next).1 := by
  rcases h : alookup st.sockets sid with _ | sock
  · have : (moveSocketToRoom st sid next).1 = st := by simp [moveSocketToRoom, h]
    rw [this]; exact hwf
  · by_cases hpn : sock.room = next
    · have : (moveSocketToRoom st sid next).1 = st := by simp [moveSocketToRoom, h, hpn]
      rw [this]; exact hwf
    · obtain ⟨ms0, hms0, hsid0⟩ := hwf.sockRoom sid sock h
      obtain ⟨hsockL, hroomL, hsockND, hroomND⟩ := moveSocketToRoom_state hwf h hpn hms0
      have hnextnd : ((alookup st.rooms next).getD []).Nodup := by
        rcases hN : alookup st.rooms next with _ | ms1
        · simp
        · simpa using hwf.memNodup next ms1 hN
      have hsidnext : sid ∉ (alookup st.rooms next).getD [] := by
        rcases hN : alookup st.rooms next with _ | ms1
        · simp
        · simp only [Option.getD_some]
          intro hmem
          obtain ⟨sock', hs', hr'⟩ := hwf.memberRoom next ms1 sid hN hmem
          rw [h] at hs'; cases hs'
          exact hpn hr'
      have hms0nd : ms0.Nodup := hwf.memNodup sock.room ms0 hms0
      refine ⟨hsockND, hroomND, ?_, ?_, ?_, ?_, ?_⟩
      · -- the default room is still registered
        rw [hroomL DEFAULT_ROOM]
        by_cases h1 : DEFAULT_ROOM = next
        · rw [if_pos h1]; simp
        · rw [if_neg h1]
          by_cases h2 : DEFAULT_ROOM = sock.room
          · rw [if_pos h2, if_pos (Or.inl h2.symm)]; simp
          · rw [if_neg h2]; exact hwf.defaultMem
      · -- member lists stay duplicate free
        intro r ms hms
        rw [hroomL r] at hms
        split at hms
        · cases hms
          refine List.Nodup.append hnextnd (List.nodup_singleton sid) ?_
          intro a ha hb
          rw [List.mem_singleton] at hb
          subst hb
          exact hsidnext ha
        · split at hms
          · split at hms
            · cases hms
              exact hms0nd.erase sid
            · cases hms
          · exact hwf.memNodup r ms hms
      · -- members point back at sockets registered in their room
        intro r ms m hms hm
        rw [hroomL r] at hms
        by_cases h1 : r = next
        · rw [if_pos h1] at hms
          cases hms
          rcases List.mem_append.mp hm with hm1 | hm2
          · rcases hN : alookup st.rooms next with _ | ms1
            · rw [hN] at hm1; simp at hm1
            · rw [hN] at hm1
              simp only [Option.getD_some] at hm1
              obtain ⟨sock', hs', hr'⟩ := hwf.memberRoom next ms1 m hN hm1
              have hmne : m ≠ sid := by
                intro he; subst he
                rw [h] at hs'; cases hs'
                exact hpn hr'
              refine ⟨sock', ?_, by rw [hr', h1]⟩
              rw [hsockL m, if_neg hmne]
              exact hs'
          · rw [List.mem_singleton] at hm2
            subst hm2
            refine ⟨{ sock with room := next }, ?_, h1.symm⟩
            rw [hsockL m, if_pos rfl]
        · rw [if_neg h1] at hms
          by_cases h2 : r = sock.room
          · rw [if_pos h2] at hms
            split at hms
            · cases hms
              have hm' := (List.Nodup.mem_erase_iff hms0nd).mp hm
              obtain ⟨sock', hs', hr'⟩ :=
                hwf.memberRoom sock.room ms0 m hms0 hm'.2
              refine ⟨sock', ?_, by rw [hr', h2]⟩
              rw [hsockL m, if_neg hm'.1]
              exact hs'
            · cases hms
          · rw [if_neg h2] at hms
            obtain ⟨sock', hs', hr'⟩ := hwf.memberRoom r ms m hms hm
            have hmne : m ≠ sid := by
              intro he; subst he
              rw [h] at hs'; cases hs'
              exact h2 hr'.symm
            refine ⟨sock', ?_, hr'⟩
            rw [hsockL m, if_neg hmne]
            exact hs'
      · -- every socket is a member of its current room
        intro s' sock' hs'
        rw [hsockL s'] at hs'
        by_cases h1 : s' = sid
        · rw [if_pos h1] at hs'
          cases hs'
          refine ⟨(alookup st.rooms next).getD [] ++ [sid], ?_, ?_⟩
          · rw [hroomL next, if_pos rfl]
          · subst h1; simp
        · rw [if_neg h1] at hs'
          obtain ⟨ms', hms', hmem'⟩ := hwf.sockRoom s' sock' hs'
          by_cases h2 : sock'.room = next
          · refine ⟨(alookup st.rooms next).getD [] ++ [sid], by rw [hroomL, if_pos h2], ?_⟩
            rw [h2] at hms'
            rw [hms']
            simp [hmem']
          · by_cases h3 : sock'.room = sock.room
            · have hmseq : ms' = ms0 := by
                rw [h3] at hms'
                rw [hms'] at hms0
                exact (Option.some.injEq _ _ ▸ hms0)
              subst hmseq
              have hmemE : s' ∈ ms'.erase sid :=
                (List.Nodup.mem_erase_iff hms0nd).mpr ⟨h1, hmem'⟩
              refine ⟨ms'.erase sid, ?_, hmemE⟩
              rw [hroomL, if_neg h2, if_pos h3,
                if_pos (Or.inr (List.ne_nil_of_mem hmemE))]
            · refine ⟨ms', ?_, hmem'⟩
              rw [hroomL, if_neg h2, if_neg h3]
              exact hms'
      · -- non-default rooms are non-empty
        intro r ms hms hne
        rw [hroomL r] at hms
        split at hms
        · cases hms; simp
        · split at hms
          · rename_i h2
            split at hms
            · cases hms
              rename_i hcond
              rcases hcond with hcond | hcond
              · exact absurd (h2 ▸ hcond : r = DEFAULT_ROOM) hne
              · exact hcond
            · cases hms
          · exact hwf.nonDefault r ms hms hne

/-! ## Preservation of the invariant by `step` -/

theorem alookup_adrop_char {α β : Type} [DecidableEq α] (l : List (α × β)) (k : α)
    (hnd : (l.map Prod.fst).Nodup) (k' : α) :
    alookup (adrop l k) k' = if k' = k then none else alookup l k' := by
  by_cases h : k' = k
  · subst h; rw [if_pos rfl]; exact alookup_adrop_self l k' hnd
  · rw [if_neg h]; exact alookup_adrop_ne l h

theorem alookup_append_fresh {α β : Type} [DecidableEq α] {l : List (α × β)} {k : α}
    (v : β) (hfresh : alookup l k = none) (k' : α) :
    alookup (l ++ [(k, v)]) k' = if k' = k then some v else alookup l k' := by
  by_cases h : k' = k
  · subst h
    rw [if_pos rfl, alookup_append_right l _ _ hfresh]
    simp [alookup]
  · rw [if_neg h]
    rcases h2 : alookup l k' with _ | w
    · rw [alookup_append_right l _ _ h2]
      simp [alookup, h]
    · exact alookup_append_left l _ _ h2

theorem step_message_eq {st : ServerState} {sid : Sid}
    (h : (alookup st.sockets sid).isSome) (now : Nat) (frame : Option ParsedMessage) :
    step st (.message sid now frame) =
      (handlerState (handleMessage st sid now frame),
        handlerOut (handleMessage st sid now frame)) := by
  simp only [step, if_pos h]
  rcases handleMessage st sid now frame with ⟨st2, out⟩ | ⟨st2, out⟩ <;> rfl

/-- Every handler run leaves the state as it was or as a `moveSocketToRoom`
result. -/
theorem handlerState_handleMessage (st : ServerState) (sid : Sid) (now : Nat)
    (frame : Option ParsedMessage) :
    handlerState (handleMessage st sid now frame) = st ∨
    ∃ next, handlerState (handleMessage st sid now frame) = (moveSocketToRoom st sid next).1 := by
  rcases frame with _ | payload
  · left; rfl
  rcases payload with room | room | text | _ | nick | _ | ty
  · rcases room with _ | raw
    · left; rfl
    · rcases hn : normalizeRoomName raw with _ | next
      · left; simp [handleMessage, hn, handlerState]
      · right; exact ⟨next, by simp [handleMessage, hn, handlerState]⟩
  · rcases room with _ | raw
    · left; rfl
    · rcases hs : alookup st.sockets sid with _ | sock
      · left; simp [handleMessage, hs, handlerState]
      · rcases hn : normalizeRoomName raw with _ | room'
        · left; simp [handleMessage, hs, hn, handlerState]
        · by_cases h1 : room' ≠ sock.room
          · left; simp [handleMessage, hs, hn, h1, handlerState]
          · rw [not_ne_iff] at h1
            by_cases h2 : sock.room = DEFAULT_ROOM
            · left; simp [handleMessage, hs, hn, h1, h2, handlerState]
            · right
              exact ⟨DEFAULT_ROOM, by simp [handleMessage, hs, hn, h1, h2, handlerState]⟩
  · rcases text with _ | raw
    · left; rfl
    · by_cases ht : jsTrim raw = ""
      · left; simp [handleMessage, ht, handlerState]
      · rcases hs : alookup st.sockets sid with _ | sock
        · left; simp [handleMessage, ht, hs, handlerState]
        · left; simp [handleMessage, ht, hs, handlerState]
  · rcases hs : alookup st.sockets sid with _ | sock
    · left; simp [handleMessage, hs, handlerState]
    · left; simp [handleMessage, hs, handlerState]
  · left; rfl
  · left; rfl
  · left; rfl

theorem step_connect_fst {st : ServerState} {sid : Sid} {tok : Option JwtOutcome} {u : String}
    (hv : verifyToken tok = some u) (hfresh : alookup st.sockets sid = none) :
    (step st (.connect sid tok)).1 =
      roomAdd
        (ensureRoom { st with sockets := st.sockets ++ [(sid, ⟨u, DEFAULT_ROOM⟩)] }
          DEFAULT_ROOM)
        DEFAULT_ROOM sid := by
  simp only [step, hv, hfresh, Option.isSome_none, Bool.false_eq_true, if_false]

theorem step_close_fst {st : ServerState} {sid : Sid} {sock : ChatSocket}
    (h : alookup st.sockets sid = some sock) :
    (step st (.close sid)).1 =
      removeRoomIfEmpty
        (roomEraseIfPresent { st with sockets := adrop st.sockets sid } sock.room sid)
        sock.room := by
  simp only [step, h]

theorem wf_step {st : ServerState} (hwf : WF st) (e : Event) : WF (step st e).1 := by
  rcases e with ⟨sid, tok⟩ | ⟨sid, now, frame⟩ | sid
  · -- connect
    rcases hv : verifyToken tok with _ | u
    · have : (step st (.connect sid tok)).1 = st := by simp [step, hv]
      rw [this]; exact hwf
    · rcases hreg : alookup st.sockets sid with _ | sock
      · -- a fresh socket attaches
        obtain ⟨msD, hD⟩ := Option.isSome_iff_exists.mp hwf.defaultMem
        have hsidD : sid ∉ msD := by
          intro hmem
          obtain ⟨sock', hs', _⟩ := hwf.memberRoom DEFAULT_ROOM msD sid hD hmem
          rw [hreg] at hs'; cases hs'
        rw [step_connect_fst hv hreg]
        have hrooms1 : ({ st with sockets := st.sockets ++ [(sid, ⟨u, DEFAULT_ROOM⟩)] }
            : ServerState).rooms = st.rooms := rfl
        have hgd : sid ∉ (alookup ({ st with
            sockets := st.sockets ++ [(sid, ⟨u, DEFAULT_ROOM⟩)] } : ServerState).rooms
            DEFAULT_ROOM).getD [] := by
          rw [hrooms1, hD]; simpa using hsidD
        have hroomL : ∀ r', alookup (roomAdd (ensureRoom { st with
            sockets := st.sockets ++ [(sid, ⟨u, DEFAULT_ROOM⟩)] } DEFAULT_ROOM)
            DEFAULT_ROOM sid).rooms r' =
            if r' = DEFAULT_ROOM then some (msD ++ [sid]) else alookup st.rooms r' := by
          intro r'
          rw [alookup_ensureAdd hgd r', hrooms1]
          by_cases hr : r' = DEFAULT_ROOM
          · rw [if_pos hr, if_pos hr, hD]; rfl
          · rw [if_neg hr, if_neg hr]
        have hsockeq : (roomAdd (ensureRoom { st with
            sockets := st.sockets ++ [(sid, ⟨u, DEFAULT_ROOM⟩)] } DEFAULT_ROOM)
            DEFAULT_ROOM sid).sockets = st.sockets ++ [(sid, ⟨u, DEFAULT_ROOM⟩)] := by
          rw [roomAdd_sockets, ensureRoom_sockets]
        have hsockL : ∀ s', alookup (roomAdd (ensureRoom { st with
            sockets := st.sockets ++ [(sid, ⟨u, DEFAULT_ROOM⟩)] } DEFAULT_ROOM)
            DEFAULT_ROOM sid).sockets s' =
            if s' = sid then some ⟨u, DEFAULT_ROOM⟩ else alookup st.sockets s' := by
          intro s'
          rw [hsockeq]
          exact alookup_append_fresh _ hreg s'
        have hroomND : ((roomAdd (ensureRoom { st with
            sockets := st.sockets ++ [(sid, ⟨u, DEFAULT_ROOM⟩)] } DEFAULT_ROOM)
            DEFAULT_ROOM sid).rooms.map Prod.fst).Nodup := by
          have : (({ st with sockets := st.sockets ++ [(sid, ⟨u, DEFAULT_ROOM⟩)] }
              : ServerState).rooms.map Prod.fst).Nodup := hwf.roomNodup
          exact nodup_ensureAdd _ _ this
        refine ⟨?_, hroomND, ?_, ?_, ?_, ?_, ?_⟩
        · rw [hsockeq]
          have : sid ∉ st.sockets.map Prod.fst := (alookup_eq_none_iff _ _).mp hreg
          simp [List.nodup_append, hwf.sockNodup, this]
        · rw [hroomL DEFAULT_ROOM, if_pos rfl]; simp
        · intro r ms hms
          rw [hroomL r] at hms
          split at hms
          · cases hms
            refine List.Nodup.append (hwf.memNodup _ _ hD) (List.nodup_singleton sid) ?_
            intro a ha hb
            rw [List.mem_singleton] at hb
            subst hb
            exact hsidD ha
          · exact hwf.memNodup r ms hms
        · intro r ms m hms hm
          rw [hroomL r] at hms
          by_cases h1 : r = DEFAULT_ROOM
          · rw [if_pos h1] at hms
            cases hms
            rcases List.mem_append.mp hm with hm1 | hm2
            · obtain ⟨sock', hs', hr'⟩ := hwf.memberRoom DEFAULT_ROOM msD m hD hm1
              have hmne : m ≠ sid := by
                intro he; subst he; rw [hreg] at hs'; cases hs'
              refine ⟨sock', ?_, by rw [hr', h1]⟩
              rw [hsockL m, if_neg hmne]
              exact hs'
            · rw [List.mem_singleton] at hm2
              subst hm2
              refine ⟨⟨u, DEFAULT_ROOM⟩, ?_, h1.symm⟩
              rw [hsockL m, if_pos rfl]
          · rw [if_neg h1] at hms
            obtain ⟨sock', hs', hr'⟩ := hwf.memberRoom r ms m hms hm
            have hmne : m ≠ sid := by
              intro he; subst he; rw [hreg] at hs'; cases hs'
            refine ⟨sock', ?_, hr'⟩
            rw [hsockL m, if_neg hmne]
            exact hs'
        · intro s' sock' hs'
          rw [hsockL s'] at hs'
          by_cases h1 : s' = sid
          · rw [if_pos h1] at hs'
            cases hs'
            refine ⟨msD ++ [sid], ?_, ?_⟩
            · rw [hroomL DEFAULT_ROOM, if_pos rfl]
            · subst h1; simp
          · rw [if_neg h1] at hs'
            obtain ⟨ms', hms', hmem'⟩ := hwf.sockRoom s' sock' hs'
            by_cases h2 : sock'.room = DEFAULT_ROOM
            · rw [h2] at hms'
              rw [hms'] at hD
              cases hD
              refine ⟨msD ++ [sid], by rw [hroomL, if_pos h2], by simp [hmem']⟩
            · refine ⟨ms', ?_, hmem'⟩
              rw [hroomL, if_neg h2]
              exact hms'
        · intro r ms hms hne
          rw [hroomL r] at hms
          split at hms
          · rename_i h1
            exact absurd h1 hne
          · exact hwf.nonDefault r ms hms hne
      · have : (step st (.connect sid tok)).1 = st := by simp [step, hv, hreg]
        rw [this]; exact hwf
  · -- an inbound frame
    by_cases hreg : (alookup st.sockets sid).isSome
    · rw [step_message_eq hreg now frame]
      rcases handlerState_handleMessage st sid now frame with h | ⟨next, h⟩
      · show WF (handlerState (handleMessage st sid now frame))
        rw [h]; exact hwf
      · show WF (handlerState (handleMessage st sid now frame))
        rw [h]; exact wf_moveSocketToRoom hwf sid next
    · have : (step st (.message sid now frame)).1 = st := by simp [step, hreg]
      rw [this]; exact hwf
  · -- a transport close
    rcases h : alookup st.sockets sid with _ | sock
    · have : (step st (.close sid)).1 = st := by simp [step, h]
      rw [this]; exact hwf
    · obtain ⟨ms0, hms0, hsid0⟩ := hwf.sockRoom sid sock h
      rw [step_close_fst h]
      have hsockL : ∀ s', alookup ({ st with sockets := adrop st.sockets sid }
          : ServerState).sockets s' =
          if s' = sid then none else alookup st.sockets s' :=
        fun s' => alookup_adrop_char st.sockets sid hwf.sockNodup s'
      have hErooms : (roomEraseIfPresent { st with sockets := adrop st.sockets sid }
          sock.room sid).rooms = aset st.rooms sock.room (ms0.erase sid) :=
        roomEraseIfPresent_rooms sid hms0
      have hEsock : (roomEraseIfPresent { st with sockets := adrop st.sockets sid }
          sock.room sid).sockets = adrop st.sockets sid := by
        rw [roomEraseIfPresent_sockets]
      have hEnd : ((roomEraseIfPresent { st with sockets := adrop st.sockets sid }
          sock.room sid).rooms.map Prod.fst).Nodup := by
        rw [hErooms]; exact nodup_keys_aset _ _ _ hwf.roomNodup
      have hEself : alookup (roomEraseIfPresent { st with sockets := adrop st.sockets sid }
          sock.room sid).rooms sock.room = some (ms0.erase sid) := by
        rw [hErooms]; exact alookup_aset_self _ _ _
      have hElookup : ∀ r', alookup (roomEraseIfPresent { st with
          sockets := adrop st.sockets sid } sock.room sid).rooms r' =
          if r' = sock.room then some (ms0.erase sid) else alookup st.rooms r' := by
        intro r'
        rw [hErooms]
        by_cases hr : r' = sock.room
        · subst hr; simp [alookup_aset_self]
        · simp [alookup_aset_ne _ _ hr, hr]
      have hroomL : ∀ r', alookup (removeRoomIfEmpty (roomEraseIfPresent { st with
          sockets := adrop st.sockets sid } sock.room sid) sock.room).rooms r' =
          if r' = sock.room then
            (if sock.room = DEFAULT_ROOM ∨ ms0.erase sid ≠ []
             then some (ms0.erase sid) else none)
          else alookup st.rooms r' := by
        intro r'
        rw [alookup_removeRoomIfEmpty hEnd hEself r']
        by_cases hr : r' = sock.room
        · rw [if_pos hr, if_pos hr]
        · rw [if_neg hr, if_neg hr, hElookup r', if_neg hr]
      have hsockF : (removeRoomIfEmpty (roomEraseIfPresent { st with
          sockets := adrop st.sockets sid } sock.room sid) sock.room).sockets =
          adrop st.sockets sid := by
        rw [removeRoomIfEmpty_sockets, hEsock]
      have hsockFL : ∀ s', alookup (removeRoomIfEmpty (roomEraseIfPresent { st with
          sockets := adrop st.sockets sid } sock.room sid) sock.room).sockets s' =
          if s' = sid then none else alookup st.sockets s' := by
        intro s'
        rw [hsockF]
        exact alookup_adrop_char st.sockets sid hwf.sockNodup s'
      have hms0nd : ms0.Nodup := hwf.memNodup sock.room ms0 hms0
      refine ⟨?_, nodup_removeRoomIfEmpty _ hEnd, ?_, ?_, ?_, ?_, ?_⟩
      · rw [hsockF]; exact nodup_keys_adrop _ _ hwf.sockNodup
      · rw [hroomL DEFAULT_ROOM]
        by_cases h1 : DEFAULT_ROOM = sock.room
        · rw [if_pos h1, if_pos (Or.inl h1.symm)]; simp
        · rw [if_neg h1]; exact hwf.defaultMem
      · intro r ms hms
        rw [hroomL r] at hms
        split at hms
        · split at hms
          · cases hms; exact hms0nd.erase sid
          · cases hms
        · exact hwf.memNodup r ms hms
      · intro r ms m hms hm
        rw [hroomL r] at hms
        by_cases h1 : r = sock.room
        · rw [if_pos h1] at hms
          split at hms
          · cases hms
            have hm' := (List.Nodup.mem_erase_iff hms0nd).mp hm
            obtain ⟨sock', hs', hr'⟩ := hwf.memberRoom sock.room ms0 m hms0 hm'.2
            refine ⟨sock', ?_, by rw [hr', h1]⟩
            rw [hsockFL m, if_neg hm'.1]
            exact hs'
          · cases hms
        · rw [if_neg h1] at hms
          obtain ⟨sock', hs', hr'⟩ := hwf.memberRoom r ms m hms hm
          have hmne : m ≠ sid := by
            intro he; subst he
            rw [h] at hs'; cases hs'
            exact h1 hr'.symm
          refine ⟨sock', ?_, hr'⟩
          rw [hsockFL m, if_neg hmne]
          exact hs'
      · intro s' sock' hs'
        rw [hsockFL s'] at hs'
        by_cases h1 : s' = sid
        · rw [if_pos h1] at hs'; cases hs'
        · rw [if_neg h1] at hs'
          obtain ⟨ms', hms', hmem'⟩ := hwf.sockRoom s' sock' hs'
          by_cases h2 : sock'.room = sock.room
          · have hmseq : ms' = ms0 := by
              rw [h2] at hms'
              rw [hms'] at hms0
              exact (Option.some.injEq _ _ ▸ hms0)
            subst hmseq
            have hmemE : s' ∈ ms'.erase sid :=
              (List.Nodup.mem_erase_iff hms0nd).mpr ⟨h1, hmem'⟩
            refine ⟨ms'.erase sid, ?_, hmemE⟩
            rw [hroomL, if_pos h2, if_pos (Or.inr (List.ne_nil_of_mem hmemE))]
          · refine ⟨ms', ?_, hmem'⟩
            rw [hroomL, if_neg h2]
            exact hms'
      · intro r ms hms hne
        rw [hroomL r] at hms
        split at hms
        · rename_i h2
          split at hms
          · cases hms
            rename_i hcond
            rcases hcond with hcond | hcond
            · exact absurd (h2 ▸ hcond : r = DEFAULT_ROOM) hne
            · exact hcond
          · cases hms
        · exact hwf.nonDefault r ms hms hne

/-- Every reachable state is well formed. -/
theorem reachable_wf {st : ServerState} (h : Reachable st) : WF st := by
  induction h with
  | init => exact wf_initial
  | step e _ ih => exact wf_step ih e

/-! ## Room-list membership -/

theorem mem_getRoomsList (st : ServerState) (r : String) :
    r ∈ getRoomsList st ↔ r = DEFAULT_ROOM ∨ r ∈ st.rooms.map Prod.fst := by
  unfold getRoomsList
  have hperm : List.Perm (List.insertionSort localeLe (st.rooms.map Prod.fst))
      (st.rooms.map Prod.fst) := List.perm_insertionSort localeLe _
  by_cases hd : DEFAULT_ROOM ∈ List.insertionSort localeLe (st.rooms.map Prod.fst)
  · rw [if_pos hd, hperm.mem_iff]
    constructor
    · exact fun h => Or.inr h
    · rintro (h | h)
      · subst h; exact hperm.mem_iff.mp hd
      · exact h
  · rw [if_neg hd]
    simp only [List.mem_cons, hperm.mem_iff]

/-! ## Claim theorems -/

theorem reachable_ex1 : Reachable ex1 := Reachable.step _ Reachable.init

theorem reachable_exAB : Reachable exAB := Reachable.step _ (Reachable.step _ Reachable.init)

/-- C5: in every reachable server state the default room `#general` is in the
room map (it is never deleted) and appears in every computed room list, even
when it has no members. -/
theorem c5_default_room_always_present (st : ServerState) (h : Reachable st) :
    DEFAULT_ROOM ∈ st.rooms.map Prod.fst ∧ DEFAULT_ROOM ∈ getRoomsList st := by
  have hwf := reachable_wf h
  exact ⟨(mem_keys_iff_isSome _ _).mpr hwf.defaultMem,
    (mem_getRoomsList st DEFAULT_ROOM).mpr (Or.inl rfl)⟩

theorem c5_witness :
    DEFAULT_ROOM ∈ initialState.rooms.map Prod.fst ∧
    DEFAULT_ROOM ∈ getRoomsList initialState :=
  c5_default_room_always_present initialState Reachable.init

/-- C9: a connection attempt whose token fails verification (missing,
invalid/expired, malformed payload, or empty username) is closed with code
4001, no frame is ever sent to it, and the server state is unchanged. -/
theorem c9_unauthorized_closed_4001 (st : ServerState) (sid : Sid)
    (token : Option JwtOutcome) (h : verifyToken token = none) :
    step st (.connect sid token) = (st, [.close sid 4001 "Unauthorized"]) ∧
    ∀ m msg, Out.send m msg ∉ (step st (.connect sid token)).2 := by
  have h1 : step st (.connect sid token) = (st, [.close sid 4001 "Unauthorized"]) := by
    simp [step, h]
  refine ⟨h1, ?_⟩
  intro m msg hmem
  rw [h1] at hmem
  simp at hmem

theorem c9_witness :
    verifyToken none = none ∧
    step initialState (.connect 0 none) =
      (initialState, [.close 0 4001 "Unauthorized"]) :=
  ⟨rfl, (c9_unauthorized_closed_4001 initialState 0 none rfl).1⟩

/-- C1 (evidence for the code bug): on the reachable state `ex1` with socket 0
attached and open, a `chat` frame whose `text` field is absent, or a
`join-room` frame whose `room` field is absent, makes the message handler
throw an uncaught `TypeError` (`undefined.trim()`), instead of answering with
a `system` notice: the `thrown` result records the exception escaping the
handler before any output. -/
theorem c1_malformed_body_throws :
    Reachable ex1 ∧ isOpen ex1 0 = true ∧
    handleMessage ex1 0 0 (some (.chat none)) = .thrown ex1 [] ∧
    handleMessage ex1 0 0 (some (.joinRoom none)) = .thrown ex1 [] :=
  ⟨reachable_ex1, rfl, rfl, rfl⟩

/-- C3 counterexample: on the reachable state `ex1` (socket 0 in `#general`),
a `leave-room` targeting `#autre` — a room that is not the sender's current
room — produces NO output at all (in particular no `system` notice), refuting
the claim that such a request is answered with a notice. -/
theorem c3_counterexample :
    Reachable ex1 ∧ isOpen ex1 0 = true ∧
    step ex1 (.message 0 0 (some (.leaveRoom (some "#autre")))) = (ex1, []) :=
  ⟨reachable_ex1, rfl, rfl⟩

/-- C3 (amended): a `leave-room` whose target fails to normalize or differs
from the sender's current room is silently dropped (no reply, no state
change); a `leave-room` targeting the current room when that room is the
default room is rejected with a `system` notice and no state change. -/
theorem c3_leave_room_rejection (st : ServerState) (sid : Sid) (sock : ChatSocket)
    (raw : String) (now : Nat) (h : alookup st.sockets sid = some sock) :
    ((normalizeRoomName raw = none ∨ normalizeRoomName raw ≠ some sock.room) →
      step st (.message sid now (some (.leaveRoom (some raw)))) = (st, [])) ∧
    (normalizeRoomName raw = some sock.room → sock.room = DEFAULT_ROOM →
      step st (.message sid now (some (.leaveRoom (some raw)))) =
        (st, [.send sid (.system "Vous etes deja dans #general.")])) := by
  have hreg : (alookup st.sockets sid).isSome := by simp [h]
  constructor
  · intro hcase
    rw [step_message_eq hreg]
    rcases hn : normalizeRoomName raw with _ | room'
    · simp [handleMessage, h, hn, handlerState, handlerOut]
    · have hne : room' ≠ sock.room := by
        rcases hcase with hc | hc
        · rw [hn] at hc; cases hc
        · rw [hn] at hc
          intro he
          exact hc (by rw [he])
      simp [handleMessage, h, hn, hne, handlerState, handlerOut]
  · intro h1 h2
    rw [step_message_eq hreg]
    simp [handleMessage, h, h1, h2, handlerState, handlerOut, sendToClient, isOpen]

theorem c3_witness :
    step ex1 (.message 0 0 (some (.leaveRoom (some "#general")))) =
      (ex1, [.send 0 (.system "Vous etes deja dans #general.")]) :=
  (c3_leave_room_rejection ex1 0 ⟨"Raphael", "#general"⟩ "#general" 0 rfl).2 rfl rfl

/-! ## Broadcast membership lemmas -/

theorem mem_broadcastToRoom {st : ServerState} {room : String} {msg : ServerMessage}
    {excl : Option Sid} {ms : List Sid} (h : alookup st.rooms room = some ms)
    {m : Sid} (hm : m ∈ ms) (hex : excl ≠ some m) (hopen : isOpen st m = true) :
    Out.send m msg ∈ broadcastToRoom st room msg excl := by
  unfold broadcastToRoom
  rw [h]
  exact List.mem_filterMap.mpr ⟨m, hm, by rw [if_pos ⟨hex, hopen⟩]⟩

theorem broadcastToRoom_excludes {st : ServerState} {room : String} {msg : ServerMessage}
    {sid : Sid} :
    ∀ o ∈ broadcastToRoom st room msg (some sid), ∀ m msg', o = Out.send m msg' → m ≠ sid := by
  intro o ho m msg' heq
  unfold broadcastToRoom at ho
  rcases h : alookup st.rooms room with _ | ms
  · rw [h] at ho; simp at ho
  · rw [h] at ho
    obtain ⟨a, _, hfa⟩ := List.mem_filterMap.mp ho
    split at hfa
    · rename_i hc
      cases hfa
      cases heq
      intro he
      exact hc.1 (by rw [he])
    · cases hfa

/-- C8: a `typing` frame from an attached socket changes no state, its
broadcast is never delivered to the sender, and it is delivered (as
`typing{nick}`) to every other currently-open member of the sender's current
room. -/
theorem c8_typing_reaches_others_never_sender (st : ServerState) (sid : Sid) (now : Nat)
    (sock : ChatSocket) (h : alookup st.sockets sid = some sock) :
    (step st (.message sid now (some .typing))).1 = st ∧
    (∀ o ∈ (step st (.message sid now (some .typing))).2,
      ∀ m msg, o = Out.send m msg → m ≠ sid) ∧
    (∀ ms, alookup st.rooms sock.room = some ms → ∀ m ∈ ms, m ≠ sid →
      isOpen st m = true →
      Out.send m (.typing sock.username) ∈ (step st (.message sid now (some .typing))).2) := by
  have hreg : (alookup st.sockets sid).isSome := by simp [h]
  have hmsg : handleMessage st sid now (some .typing) =
      .ok st (broadcastToRoom st sock.room (.typing sock.username) (some sid)) := by
    simp [handleMessage, h]
  rw [step_message_eq hreg, hmsg]
  refine ⟨rfl, ?_, ?_⟩
  · intro o ho m msg heq
    exact broadcastToRoom_excludes o ho m msg heq
  · intro ms hms m hm hmne hopen
    exact mem_broadcastToRoom hms hm (fun he => hmne (Option.some.inj he).symm) hopen

theorem c8_witness :
    (step exAB (.message 0 0 (some .typing))).1 = exAB ∧
    Out.send 1 (.typing "a") ∈ (step exAB (.message 0 0 (some .typing))).2 := by
  have h := c8_typing_reaches_others_never_sender exAB 0 0 ⟨"a", "#general"⟩ rfl
  exact ⟨h.1, h.2.2 [0, 1] rfl 1 (by decide) (by decide) rfl⟩

/-! ## Identity constancy -/

theorem step_close_sockets {st : ServerState} {sid2 : Sid} {sock2 : ChatSocket}
    (h2 : alookup st.sockets sid2 = some sock2) :
    (step st (.close sid2)).1.sockets = adrop st.sockets sid2 := by
  rw [step_close_fst h2, removeRoomIfEmpty_sockets, roomEraseIfPresent_sockets]

/-- The username recorded for a socket never changes across any event. -/
theorem username_constant {st : ServerState} (hwf : WF st) (e : Event) (sid : Sid)
    (sock sock' : ChatSocket) (h : alookup st.sockets sid = some sock)
    (h' : alookup (step st e).1.sockets sid = some sock') :
    sock'.username = sock.username := by
  rcases e with ⟨sid2, tok⟩ | ⟨sid2, now, frame⟩ | sid2
  · -- connect
    rcases hv : verifyToken tok with _ | u
    · have : (step st (.connect sid2 tok)).1 = st := by simp [step, hv]
      rw [this, h] at h'
      cases h'; rfl
    · rcases hreg : alookup st.sockets sid2 with _ | sock2
      · have hne : sid ≠ sid2 := by
          intro he; subst he; rw [h] at hreg; cases hreg
        rw [step_connect_fst hv hreg] at h'
        have : (roomAdd (ensureRoom { st with
            sockets := st.sockets ++ [(sid2, ⟨u, DEFAULT_ROOM⟩)] } DEFAULT_ROOM)
            DEFAULT_ROOM sid2).sockets = st.sockets ++ [(sid2, ⟨u, DEFAULT_ROOM⟩)] := by
          rw [roomAdd_sockets, ensureRoom_sockets]
        rw [this, alookup_append_fresh _ hreg sid, if_neg hne, h] at h'
        cases h'; rfl
      · have : (step st (.connect sid2 tok)).1 = st := by simp [step, hv, hreg]
        rw [this, h] at h'
        cases h'; rfl
  · -- message
    by_cases hreg : (alookup st.sockets sid2).isSome
    · rw [step_message_eq hreg] at h'
      rcases handlerState_handleMessage st sid2 now frame with heq | ⟨next, heq⟩
      · change alookup (handlerState (handleMessage st sid2 now frame)).sockets sid =
          some sock' at h'
        rw [heq, h] at h'
        cases h'; rfl
      · change alookup (handlerState (handleMessage st sid2 now frame)).sockets sid =
          some sock' at h'
        rw [heq] at h'
        rcases h2 : alookup st.sockets sid2 with _ | sock2
        · rw [h2] at hreg; simp at hreg
        · by_cases hpn : sock2.room = next
          · have : (moveSocketToRoom st sid2 next).1 = st := by
              simp [moveSocketToRoom, h2, hpn]
            rw [this, h] at h'
            cases h'; rfl
          · obtain ⟨ms0, hms0, _⟩ := hwf.sockRoom sid2 sock2 h2
            obtain ⟨hsockL, _, _, _⟩ := moveSocketToRoom_state hwf h2 hpn hms0
            rw [hsockL sid] at h'
            by_cases hs : sid = sid2
            · rw [if_pos hs] at h'
              cases h'
              subst hs
              rw [h] at h2
              cases h2
              rfl
            · rw [if_neg hs, h] at h'
              cases h'; rfl
    · have : (step st (.message sid2 now frame)).1 = st := by simp [step, hreg]
      rw [this, h] at h'
      cases h'; rfl
  · -- close
    rcases h2 : alookup st.sockets sid2 with _ | sock2
    · have : (step st (.close sid2)).1 = st := by simp [step, h2]
      rw [this, h] at h'
      cases h'; rfl
    · rw [step_close_sockets h2,
        alookup_adrop_char st.sockets sid2 hwf.sockNodup sid] at h'
      by_cases hs : sid = sid2
      · rw [if_pos hs] at h'; cases h'
      · rw [if_neg hs, h] at h'
        cases h'; rfl

/-- C10: identities are fixed at attach.  `set-nick` and `leave` frames (and
any unknown type) hit only the catch-all dispatch arm, which answers
`"Type non supporte."` to the sender and changes nothing; and across every
event a registered socket's username never changes. -/
theorem c10_identity_fixed_at_attach (st : ServerState) (h : Reachable st) :
    (∀ sid now nickField, isOpen st sid = true →
      step st (.message sid now (some (.setNick nickField))) =
        (st, [.send sid (.system "Type non supporte.")]) ∧
      step st (.message sid now (some .leave)) =
        (st, [.send sid (.system "Type non supporte.")]) ∧
      ∀ ty, step st (.message sid now (some (.other ty))) =
        (st, [.send sid (.system "Type non supporte.")])) ∧
    (∀ e sid sock sock', alookup st.sockets sid = some sock →
      alookup (step st e).1.sockets sid = some sock' →
      sock'.username = sock.username) := by
  have hwf := reachable_wf h
  constructor
  · intro sid now nickField hopen
    have hreg : (alookup st.sockets sid).isSome := hopen
    refine ⟨?_, ?_, ?_⟩
    · rw [step_message_eq hreg]
      simp [handleMessage, handlerState, handlerOut, sendToClient, hopen]
    · rw [step_message_eq hreg]
      simp [handleMessage, handlerState, handlerOut, sendToClient, hopen]
    · intro ty
      rw [step_message_eq hreg]
      simp [handleMessage, handlerState, handlerOut, sendToClient, hopen]
  · intro e sid sock sock' hs hs'
    exact username_constant hwf e sid sock sock' hs hs'

theorem c10_witness :
    step ex1 (.message 0 0 (some (.setNick (some "Zoe")))) =
      (ex1, [.send 0 (.system "Type non supporte.")]) ∧
    step ex1 (.message 0 0 (some .leave)) =
      (ex1, [.send 0 (.system "Type non supporte.")]) := by
  have h := (c10_identity_fixed_at_attach ex1 reachable_ex1).1 0 0 (some "Zoe") rfl
  exact ⟨h.1, h.2.1⟩

/-! ## Room-list payload lemmas (for C6) -/

theorem roomListPayloads_append (a b : List Out) :
    roomListPayloads (a ++ b) = roomListPayloads a ++ roomListPayloads b := by
  simp [roomListPayloads]

theorem mem_broadcastToRoom_shape {st : ServerState} {room : String} {msg : ServerMessage}
    {excl : Option Sid} :
    ∀ o ∈ broadcastToRoom st room msg excl, ∃ i, o = Out.send i msg := by
  intro o ho
  unfold broadcastToRoom at ho
  rcases h : alookup st.rooms room with _ | ms
  · rw [h] at ho; simp at ho
  · rw [h] at ho
    obtain ⟨a, _, hfa⟩ := List.mem_filterMap.mp ho
    split at hfa
    · cases hfa; exact ⟨a, rfl⟩
    · cases hfa

theorem roomListPayloads_broadcastToRoom (st : ServerState) (room : String)
    (msg : ServerMessage) (excl : Option Sid) (h : ∀ L, msg ≠ ServerMessage.roomList L) :
    roomListPayloads (broadcastToRoom st room msg excl) = [] := by
  rw [List.eq_nil_iff_forall_not_mem]
  intro l hl
  obtain ⟨o, ho, hol⟩ := List.mem_filterMap.mp hl
  obtain ⟨i, rfl⟩ := mem_broadcastToRoom_shape o ho
  rcases msg with _ | _ | _ | L | _ | _ <;> simp at hol
  exact h L rfl

theorem roomListPayloads_broadcastUserList (st : ServerState) (room : String) :
    roomListPayloads (broadcastUserList st room) = [] :=
  roomListPayloads_broadcastToRoom st room _ none (fun L h => by cases h)

theorem roomListPayloads_sendToClient_system (st : ServerState) (sid : Sid) (t : String) :
    roomListPayloads (sendToClient st sid (.system t)) = [] := by
  unfold sendToClient; split <;> rfl

theorem roomListPayloads_sendToClient_roomCurrent (st : ServerState) (sid : Sid)
    (r : String) : roomListPayloads (sendToClient st sid (.roomCurrent r)) = [] := by
  unfold sendToClient; split <;> rfl

theorem roomListPayloads_sendToClient_userList (st : ServerState) (sid : Sid)
    (r : String) (us : List String) :
    roomListPayloads (sendToClient st sid (.userList r us)) = [] := by
  unfold sendToClient; split <;> rfl

theorem roomListPayloads_sendToClient_roomList (st : ServerState) (sid : Sid)
    (L : List String) :
    ∀ l ∈ roomListPayloads (sendToClient st sid (.roomList L)), l = L := by
  unfold sendToClient
  split
  · intro l hl
    simp [roomListPayloads] at hl
    exact hl
  · intro l hl
    simp [roomListPayloads] at hl

theorem roomListPayloads_sendRoomState (st : ServerState) (sid : Sid) :
    roomListPayloads (sendRoomState st sid) = [] := by
  unfold sendRoomState
  split
  · rfl
  · rw [roomListPayloads_append, roomListPayloads_sendToClient_roomCurrent,
      roomListPayloads_sendToClient_userList]
    rfl

theorem roomListPayloads_broadcastRoomList (st : ServerState) :
    ∀ l ∈ roomListPayloads (broadcastRoomList st), l = getRoomsList st := by
  intro l hl
  obtain ⟨o, ho, hol⟩ := List.mem_filterMap.mp hl
  obtain ⟨p, _, hfp⟩ := List.mem_filterMap.mp ho
  split at hfp
  · cases hfp
    exact (Option.some.inj hol).symm
  · cases hfp

theorem roomListPayloads_moveSocketToRoom (st : ServerState) (sid : Sid) (next : String) :
    ∀ l ∈ roomListPayloads (moveSocketToRoom st sid next).2,
      l = getRoomsList (moveSocketToRoom st sid next).1 := by
  rcases h : alookup st.sockets sid with _ | sock
  · simp [moveSocketToRoom, h, roomListPayloads]
  · by_cases hpn : sock.room = next
    · simp only [moveSocketToRoom, h, if_pos hpn]
      rw [roomListPayloads_sendRoomState]
      intro l hl
      simp at hl
    · simp only [moveSocketToRoom, h, if_neg hpn]
      intro l hl
      rw [roomListPayloads_append, roomListPayloads_append, roomListPayloads_append,
        roomListPayloads_append, roomListPayloads_append,
        roomListPayloads_broadcastToRoom _ _ _ _ (fun L hL => by cases hL),
        roomListPayloads_broadcastUserList, roomListPayloads_sendRoomState,
        roomListPayloads_broadcastToRoom _ _ _ _ (fun L hL => by cases hL),
        roomListPayloads_broadcastUserList] at hl
      simp only [List.nil_append] at hl
      exact roomListPayloads_broadcastRoomList _ l hl

theorem roomListPayloads_handleMessage (st : ServerState) (sid : Sid) (now : Nat)
    (frame : Option ParsedMessage) :
    ∀ l ∈ roomListPayloads (handlerOut (handleMessage st sid now frame)),
      l = getRoomsList (handlerState (handleMessage st sid now frame)) := by
  rcases frame with _ | payload
  · intro l hl
    simp only [handleMessage, handlerOut] at hl
    rw [roomListPayloads_sendToClient_system] at hl
    simp at hl
  rcases payload with room | room | text | _ | nick | _ | ty
  · rcases room with _ | raw
    · intro l hl; simp [handleMessage, handlerOut, roomListPayloads] at hl
    · rcases hn : normalizeRoomName raw with _ | next
      · intro l hl
        simp only [handleMessage, hn, handlerOut] at hl
        rw [roomListPayloads_sendToClient_system] at hl
        simp at hl
      · intro l hl
        simp only [handleMessage, hn, handlerOut, handlerState]
        simp only [handleMessage, hn, handlerOut] at hl
        exact roomListPayloads_moveSocketToRoom st sid next l hl
  · rcases room with _ | raw
    · intro l hl; simp [handleMessage, handlerOut, roomListPayloads] at hl
    · rcases hs : alookup st.sockets sid with _ | sock
      · intro l hl; simp [handleMessage, hs, handlerOut, roomListPayloads] at hl
      · rcases hn : normalizeRoomName raw with _ | room'
        · intro l hl; simp [handleMessage, hs, hn, handlerOut, roomListPayloads] at hl
        · by_cases h1 : room' ≠ sock.room
          · intro l hl
            simp [handleMessage, hs, hn, h1, handlerOut, roomListPayloads] at hl
          · rw [not_ne_iff] at h1
            by_cases h2 : sock.room = DEFAULT_ROOM
            · intro l hl
              have hmsg : handleMessage st sid now (some (.leaveRoom (some raw))) =
                  .ok st (sendToClient st sid (.system "Vous etes deja dans #general.")) := by
                simp [handleMessage, hs, hn, h1, h2]
              rw [hmsg] at hl
              simp only [handlerOut] at hl
              rw [roomListPayloads_sendToClient_system] at hl
              simp at hl
            · intro l hl
              have hmsg : handleMessage st sid now (some (.leaveRoom (some raw))) =
                  .ok (moveSocketToRoom st sid DEFAULT_ROOM).1
                    (moveSocketToRoom st sid DEFAULT_ROOM).2 := by
                simp [handleMessage, hs, hn, h1, h2]
              rw [hmsg] at hl ⊢
              simp only [handlerOut, handlerState] at hl ⊢
              exact roomListPayloads_moveSocketToRoom st sid DEFAULT_ROOM l hl
  · rcases text with _ | raw
    · intro l hl; simp [handleMessage, handlerOut, roomListPayloads] at hl
    · by_cases ht : jsTrim raw = ""
      · intro l hl; simp [handleMessage, ht, handlerOut, roomListPayloads] at hl
      · rcases hs : alookup st.sockets sid with _ | sock
        · intro l hl; simp [handleMessage, ht, hs, handlerOut, roomListPayloads] at hl
        · intro l hl
          have hmsg : handleMessage st sid now (some (.chat (some raw))) =
              .ok st (broadcastToRoom st sock.room
                (.chat sock.username (jsTrim raw) now) none) := by
            simp [handleMessage, ht, hs]
          rw [hmsg] at hl
          simp only [handlerOut] at hl
          rw [roomListPayloads_broadcastToRoom _ _ _ _ (fun L hL => by cases hL)] at hl
          simp at hl
  · rcases hs : alookup st.sockets sid with _ | sock
    · intro l hl; simp [handleMessage, hs, handlerOut, roomListPayloads] at hl
    · intro l hl
      simp only [handleMessage, hs, handlerOut] at hl
      rw [roomListPayloads_broadcastToRoom _ _ _ _ (fun L hL => by cases hL)] at hl
      simp at hl
  · intro l hl
    simp only [handleMessage, handlerOut] at hl
    rw [roomListPayloads_sendToClient_system] at hl
    simp at hl
  · intro l hl
    simp only [handleMessage, handlerOut] at hl
    rw [roomListPayloads_sendToClient_system] at hl
    simp at hl
  · intro l hl
    simp only [handleMessage, handlerOut] at hl
    rw [roomListPayloads_sendToClient_system] at hl
    simp at hl

/-- Every `room-list` frame emitted by a step carries the room list of the
state the step ends in (the code always broadcasts it after all mutations). -/
theorem roomListPayloads_step (st : ServerState) (e : Event) :
    ∀ l ∈ roomListPayloads (step st e).2, l = getRoomsList (step st e).1 := by
  rcases e with ⟨sid, tok⟩ | ⟨sid, now, frame⟩ | sid
  · rcases hv : verifyToken tok with _ | u
    · intro l hl
      simp [step, hv, roomListPayloads] at hl
    · rcases hreg : alookup st.sockets sid with _ | sock
      · intro l hl
        simp only [step, hv, hreg, Option.isSome_none, Bool.false_eq_true, if_false] at hl ⊢
        rw [roomListPayloads_append, roomListPayloads_append, roomListPayloads_append,
          roomListPayloads_append, roomListPayloads_append, roomListPayloads_append,
          roomListPayloads_broadcastToRoom _ _ _ _ (fun L hL => by cases hL),
          roomListPayloads_broadcastUserList, roomListPayloads_sendToClient_system,
          roomListPayloads_sendToClient_roomCurrent,
          roomListPayloads_sendToClient_userList] at hl
        simp only [List.nil_append, List.append_nil, List.mem_append] at hl
        rcases hl with hl | hl
        · exact roomListPayloads_sendToClient_roomList _ _ _ l hl
        · exact roomListPayloads_broadcastRoomList _ l hl
      · intro l hl
        simp [step, hv, hreg, roomListPayloads] at hl
  · by_cases hreg : (alookup st.sockets sid).isSome
    · rw [step_message_eq hreg]
      exact roomListPayloads_handleMessage st sid now frame
    · intro l hl
      simp [step, hreg, roomListPayloads] at hl
  · rcases h : alookup st.sockets sid with _ | sock
    · intro l hl
      simp [step, h, roomListPayloads] at hl
    · intro l hl
      simp only [step, h] at hl ⊢
      rw [roomListPayloads_append, roomListPayloads_append,
        roomListPayloads_broadcastToRoom _ _ _ _ (fun L hL => by cases hL),
        roomListPayloads_broadcastUserList] at hl
      simp only [List.nil_append] at hl
      exact roomListPayloads_broadcastRoomList _ l hl

/-- C6: every `room-list` frame a step sends is exactly the room list of the
post-step state, and in that state a non-default room name is listed iff its
member set is non-empty. -/
theorem c6_roomlist_iff_nonempty (st : ServerState) (e : Event) (h : Reachable st) :
    (∀ l ∈ roomListPayloads (step st e).2, l = getRoomsList (step st e).1) ∧
    (∀ r, r ≠ DEFAULT_ROOM →
      (r ∈ getRoomsList (step st e).1 ↔
        ∃ ms, alookup (step st e).1.rooms r = some ms ∧ ms ≠ [])) := by
  refine ⟨roomListPayloads_step st e, ?_⟩
  have hwf : WF (step st e).1 := reachable_wf (Reachable.step e h)
  intro r hr
  rw [mem_getRoomsList]
  constructor
  · rintro (h1 | h1)
    · exact absurd h1 hr
    · obtain ⟨ms, hms⟩ := Option.isSome_iff_exists.mp ((mem_keys_iff_isSome _ _).mp h1)
      exact ⟨ms, hms, hwf.nonDefault r ms hms hr⟩
  · rintro ⟨ms, hms, _⟩
    exact Or.inr ((mem_keys_iff_isSome _ _).mpr (by simp [hms]))

theorem c6_witness :
    (∀ l ∈ roomListPayloads (step initialState
        (.connect 0 (some (.obj (some "Raphael"))))).2,
      l = getRoomsList (step initialState (.connect 0 (some (.obj (some "Raphael"))))).1) ∧
    (∀ r, r ≠ DEFAULT_ROOM →
      (r ∈ getRoomsList (step initialState (.connect 0 (some (.obj (some "Raphael"))))).1 ↔
        ∃ ms, alookup (step initialState
          (.connect 0 (some (.obj (some "Raphael"))))).1.rooms r = some ms ∧ ms ≠ [])) :=
  c6_roomlist_iff_nonempty initialState (.connect 0 (some (.obj (some "Raphael"))))
    Reachable.init

/-! ## C4: the user list -/

/-- C4 counterexample: on the reachable state `exAB` (identities "a" and "B"
in the default room), the user list is `["a", "B"]` — the order produced by
`localeCompare` — which is NOT sorted in plain code-point lexicographic order
(`"B" < "a"` there, since `'B'` is 66 and `'a'` is 97; the sorting relation
below is code-point `≤` on the character lists). -/
theorem c4_counterexample :
    Reachable exAB ∧
    getUsersForRoom exAB DEFAULT_ROOM = ["a", "B"] ∧
    ¬ List.Sorted (fun a b : String => ¬ b.data < a.data)
      (getUsersForRoom exAB DEFAULT_ROOM) :=
  ⟨reachable_exAB, by decide, by decide⟩

/-- C4 (amended): for any room in the map, the user list is a permutation of
the usernames of its members that have a non-empty identity (in particular it
contains exactly those identities), and it is sorted by the `localeCompare`
comparator — case-insensitive primary comparison with lower case before upper
case on ties — rather than by plain code-point order; being a function of the
member list, the output is deterministic. -/
theorem c4_users_sorted_by_locale (st : ServerState) (room : String) (ms : List Sid)
    (h : alookup st.rooms room = some ms) :
    List.Perm (getUsersForRoom st room)
      (((ms.filterMap fun m => alookup st.sockets m).map ChatSocket.username).filter
        fun u => u ≠ "") ∧
    List.Sorted localeLe (getUsersForRoom st room) := by
  simp only [getUsersForRoom, h]
  exact ⟨List.perm_insertionSort _ _, List.sorted_insertionSort _ _⟩

theorem c4_witness :
    List.Perm (getUsersForRoom exAB DEFAULT_ROOM)
      ((([0, 1].filterMap fun m => alookup exAB.sockets m).map ChatSocket.username).filter
        fun u => u ≠ "") ∧
    List.Sorted localeLe (getUsersForRoom exAB DEFAULT_ROOM) :=
  c4_users_sorted_by_locale exAB DEFAULT_ROOM [0, 1] (by decide)

/-! ## C2: delivery order on attach -/

theorem sentTo_append (a b : List Out) (sid : Sid) :
    sentTo (a ++ b) sid = sentTo a sid ++ sentTo b sid := by
  simp [sentTo]

theorem sentTo_sendToClient_self (st : ServerState) (sid : Sid) (msg : ServerMessage)
    (hopen : isOpen st sid = true) :
    sentTo (sendToClient st sid msg) sid = [msg] := by
  simp [sendToClient, hopen, sentTo]

theorem sentTo_nil (m : Sid) : sentTo [] m = [] := rfl

theorem sentTo_cons_send_self (m : Sid) (msg : ServerMessage) (l : List Out) :
    sentTo (Out.send m msg :: l) m = msg :: sentTo l m := by
  simp [sentTo]

theorem sentTo_cons_send_ne {i m : Sid} (h : i ≠ m) (msg : ServerMessage) (l : List Out) :
    sentTo (Out.send i msg :: l) m = sentTo l m := by
  simp [sentTo, h]

theorem sentTo_roomcast (st : ServerState) (msg : ServerMessage) (excl : Option Sid)
    (sid : Sid) (ms : List Sid) (hnd : ms.Nodup) :
    sentTo (ms.filterMap fun m =>
      if excl ≠ some m ∧ isOpen st m then some (Out.send m msg) else none) sid =
    if sid ∈ ms ∧ excl ≠ some sid ∧ isOpen st sid = true then [msg] else [] := by
  induction ms with
  | nil => simp [sentTo]
  | cons m rest ih =>
    obtain ⟨hnm, hndr⟩ := List.nodup_cons.mp hnd
    by_cases hm : m = sid
    · subst hm
      have hrest : sentTo (rest.filterMap fun x =>
          if excl ≠ some x ∧ isOpen st x then some (Out.send x msg) else none) m = [] := by
        rw [ih hndr, if_neg]
        intro hcc
        exact hnm hcc.1
      by_cases hc : excl ≠ some m ∧ isOpen st m = true
      · rw [List.filterMap_cons_some (by rw [if_pos hc]),
          if_pos ⟨List.mem_cons_self m rest, hc.1, hc.2⟩,
          sentTo_cons_send_self, hrest]
      · rw [List.filterMap_cons_none (by rw [if_neg hc]), hrest, if_neg]
        intro hcc
        exact hc ⟨hcc.2.1, hcc.2.2⟩
    · have hiff : (sid ∈ m :: rest ∧ excl ≠ some sid ∧ isOpen st sid = true) ↔
          (sid ∈ rest ∧ excl ≠ some sid ∧ isOpen st sid = true) := by
        constructor
        · rintro ⟨h1, h2⟩
          rcases List.mem_cons.mp h1 with he | he
          · exact absurd he.symm hm
          · exact ⟨he, h2⟩
        · rintro ⟨h1, h2⟩
          exact ⟨List.mem_cons_of_mem _ h1, h2⟩
      rw [if_congr hiff rfl rfl, ← ih hndr]
      by_cases hc : excl ≠ some m ∧ isOpen st m = true
      · rw [List.filterMap_cons_some (by rw [if_pos hc]),
          sentTo_cons_send_ne hm]
      · rw [List.filterMap_cons_none (by rw [if_neg hc])]

theorem sentTo_broadcastToRoom {st : ServerState} {room : String} {ms : List Sid}
    (msg : ServerMessage) (excl : Option Sid) (sid : Sid)
    (h : alookup st.rooms room = some ms) (hnd : ms.Nodup) :
    sentTo (broadcastToRoom st room msg excl) sid =
      if sid ∈ ms ∧ excl ≠ some sid ∧ isOpen st sid = true then [msg] else [] := by
  unfold broadcastToRoom
  rw [h]
  exact sentTo_roomcast st msg excl sid ms hnd

theorem sentTo_sends (st : ServerState) (payload : ServerMessage)
    (l : List (Sid × ChatSocket)) (sid : Sid) (hnd : (l.map Prod.fst).Nodup) :
    sentTo (l.filterMap fun p =>
      if isOpen st p.1 then some (Out.send p.1 payload) else none) sid =
    if sid ∈ l.map Prod.fst ∧ isOpen st sid = true then [payload] else [] := by
  induction l with
  | nil => simp [sentTo]
  | cons p rest ih =>
    simp only [List.map_cons, List.nodup_cons] at hnd
    obtain ⟨hnm, hndr⟩ := hnd
    by_cases hm : p.1 = sid
    · have hrest : sentTo (rest.filterMap fun q =>
          if isOpen st q.1 then some (Out.send q.1 payload) else none) sid = [] := by
        rw [ih hndr, if_neg]
        intro hcc
        exact hnm (hm ▸ hcc.1)
      by_cases hc : isOpen st p.1 = true
      · rw [List.filterMap_cons_some (by rw [if_pos hc]), List.map_cons,
          if_pos ⟨by simp [hm], by rw [← hm]; exact hc⟩, hm,
          sentTo_cons_send_self, hrest]
      · rw [List.filterMap_cons_none (by rw [if_neg hc]), hrest, List.map_cons, if_neg]
        intro hcc
        exact hc (by rw [hm]; exact hcc.2)
    · have hiff : (sid ∈ p.1 :: rest.map Prod.fst ∧ isOpen st sid = true) ↔
          (sid ∈ rest.map Prod.fst ∧ isOpen st sid = true) := by
        constructor
        · rintro ⟨h1, h2⟩
          rcases List.mem_cons.mp h1 with he | he
          · exact absurd he.symm hm
          · exact ⟨he, h2⟩
        · rintro ⟨h1, h2⟩
          exact ⟨List.mem_cons_of_mem _ h1, h2⟩
      rw [List.map_cons, if_congr hiff rfl rfl, ← ih hndr]
      by_cases hc : isOpen st p.1 = true
      · rw [List.filterMap_cons_some (by rw [if_pos hc]),
          sentTo_cons_send_ne hm]
      · rw [List.filterMap_cons_none (by rw [if_neg hc])]

theorem sentTo_broadcastRoomList (st : ServerState) (sid : Sid)
    (hnd : (st.sockets.map Prod.fst).Nodup) :
    sentTo (broadcastRoomList st) sid =
      if sid ∈ st.sockets.map Prod.fst ∧ isOpen st sid = true then
        [.roomList (getRoomsList st)] else [] :=
  sentTo_sends st _ st.sockets sid hnd

/-- C2 counterexample: for a fresh attach on the empty server, the FIRST
frame delivered to the new connection is the join-announcement broadcast
(`"Raphael a rejoint #general"`), not the welcome message: the broadcast
traffic triggered by its own attach reaches it before the snapshot. -/
theorem c2_counterexample :
    sentTo (step initialState (.connect 0 (some (.obj (some "Raphael"))))).2 0 =
      [.system "Raphael a rejoint #general",
       .userList "#general" ["Raphael"],
       .system "Connexion etablie pour Raphael.",
       .roomCurrent "#general",
       .roomList ["#general"],
       .userList "#general" ["Raphael"],
       .roomList ["#general"]] ∧
    (sentTo (step initialState (.connect 0 (some (.obj (some "Raphael"))))).2 0).head? ≠
      some (.system "Connexion etablie pour Raphael.") :=
  ⟨by decide, by decide⟩

/-- C2 (amended): on attach the server does send, to the new connection and
in this relative order, the welcome `system` message, `room-current`,
`room-list` and `user-list` for the starting room — but only after the join
announcement and the room-wide `user-list` broadcast triggered by its own
attach have already been delivered to it; a final global `room-list`
broadcast follows the snapshot. -/
theorem c2_attach_order (st : ServerState) (sid : Sid) (u : String) (h : Reachable st)
    (hfresh : alookup st.sockets sid = none) (hu : u ≠ "") :
    sentTo (step st (.connect sid (some (.obj (some u))))).2 sid =
      [.system s!"{u} a rejoint {DEFAULT_ROOM}",
       .userList DEFAULT_ROOM
         (getUsersForRoom (step st (.connect sid (some (.obj (some u))))).1 DEFAULT_ROOM),
       .system s!"Connexion etablie pour {u}.",
       .roomCurrent DEFAULT_ROOM,
       .roomList (getRoomsList (step st (.connect sid (some (.obj (some u))))).1),
       .userList DEFAULT_ROOM
         (getUsersForRoom (step st (.connect sid (some (.obj (some u))))).1 DEFAULT_ROOM),
       .roomList (getRoomsList (step st (.connect sid (some (.obj (some u))))).1)] := by
  have hwf := reachable_wf h
  have hv : verifyToken (some (.obj (some u))) = some u := by simp [verifyToken, hu]
  obtain ⟨msD, hD⟩ := Option.isSome_iff_exists.mp hwf.defaultMem
  have hsidD : sid ∉ msD := by
    intro hmem
    obtain ⟨sock', hs', _⟩ := hwf.memberRoom DEFAULT_ROOM msD sid hD hmem
    rw [hfresh] at hs'; cases hs'
  simp only [step, hv, hfresh, Option.isSome_none, Bool.false_eq_true, if_false]
  have hgd : sid ∉ (alookup ({ st with
      sockets := st.sockets ++ [(sid, ⟨u, DEFAULT_ROOM⟩)] } : ServerState).rooms
      DEFAULT_ROOM).getD [] := by
    show sid ∉ (alookup st.rooms DEFAULT_ROOM).getD []
    rw [hD]
    simpa using hsidD
  have hroomD : alookup (roomAdd (ensureRoom { st with
      sockets := st.sockets ++ [(sid, ⟨u, DEFAULT_ROOM⟩)] } DEFAULT_ROOM)
      DEFAULT_ROOM sid).rooms DEFAULT_ROOM = some (msD ++ [sid]) := by
    rw [alookup_ensureAdd hgd DEFAULT_ROOM, if_pos rfl]
    show some ((alookup st.rooms DEFAULT_ROOM).getD [] ++ [sid]) = _
    rw [hD]
    rfl
  have hsockeq : (roomAdd (ensureRoom { st with
      sockets := st.sockets ++ [(sid, ⟨u, DEFAULT_ROOM⟩)] } DEFAULT_ROOM)
      DEFAULT_ROOM sid).sockets = st.sockets ++ [(sid, ⟨u, DEFAULT_ROOM⟩)] := by
    rw [roomAdd_sockets, ensureRoom_sockets]
  have hopen2 : isOpen (roomAdd (ensureRoom { st with
      sockets := st.sockets ++ [(sid, ⟨u, DEFAULT_ROOM⟩)] } DEFAULT_ROOM)
      DEFAULT_ROOM sid) sid = true := by
    rw [isOpen, hsockeq, alookup_append_fresh _ hfresh sid, if_pos rfl]
    rfl
  have hmemnd : (msD ++ [sid]).Nodup := by
    refine List.Nodup.append (hwf.memNodup _ _ hD) (List.nodup_singleton sid) ?_
    intro a ha hb
    rw [List.mem_singleton] at hb
    subst hb
    exact hsidD ha
  have hkeysnd : ((roomAdd (ensureRoom { st with
      sockets := st.sockets ++ [(sid, ⟨u, DEFAULT_ROOM⟩)] } DEFAULT_ROOM)
      DEFAULT_ROOM sid).sockets.map Prod.fst).Nodup := by
    rw [hsockeq]
    have : sid ∉ st.sockets.map Prod.fst := (alookup_eq_none_iff _ _).mp hfresh
    simp [List.nodup_append, hwf.sockNodup, this]
  have hsidkeys : sid ∈ (roomAdd (ensureRoom { st with
      sockets := st.sockets ++ [(sid, ⟨u, DEFAULT_ROOM⟩)] } DEFAULT_ROOM)
      DEFAULT_ROOM sid).sockets.map Prod.fst := by
    rw [hsockeq]
    simp
  rw [sentTo_append, sentTo_append, sentTo_append, sentTo_append, sentTo_append,
    sentTo_append]
  rw [sentTo_broadcastToRoom _ _ _ hroomD hmemnd,
    if_pos ⟨by simp, by simp, hopen2⟩]
  unfold broadcastUserList
  rw [sentTo_broadcastToRoom _ _ _ hroomD hmemnd,
    if_pos ⟨by simp, by simp, hopen2⟩]
  rw [sentTo_sendToClient_self _ _ _ hopen2, sentTo_sendToClient_self _ _ _ hopen2,
    sentTo_sendToClient_self _ _ _ hopen2, sentTo_sendToClient_self _ _ _ hopen2]
  rw [sentTo_broadcastRoomList _ _ hkeysnd, if_pos ⟨hsidkeys, hopen2⟩]
  rfl

theorem c2_witness :
    sentTo (step initialState (.connect 7 (some (.obj (some "Raphael"))))).2 7 =
      [.system s!"Raphael a rejoint {DEFAULT_ROOM}",
       .userList DEFAULT_ROOM
         (getUsersForRoom (step initialState
           (.connect 7 (some (.obj (some "Raphael"))))).1 DEFAULT_ROOM),
       .system "Connexion etablie pour Raphael.",
       .roomCurrent DEFAULT_ROOM,
       .roomList (getRoomsList (step initialState
         (.connect 7 (some (.obj (some "Raphael"))))).1),
       .userList DEFAULT_ROOM
         (getUsersForRoom (step initialState
           (.connect 7 (some (.obj (some "Raphael"))))).1 DEFAULT_ROOM),
       .roomList (getRoomsList (step initialState
         (.connect 7 (some (.obj (some "Raphael"))))).1)] :=
  c2_attach_order initialState 7 "Raphael" Reachable.init rfl (by decide)

/-! ## C7: room-name normalization -/

theorem toNat_ofNat_valid {n : Nat} (h : n.isValidChar) : (Char.ofNat n).toNat = n := by
  unfold Char.ofNat
  rw [dif_pos h]
  simp [Char.ofNatAux, Char.toNat, UInt32.toNat]

theorem jsLowerChar_not_upper (c : Char) :
    ¬(65 ≤ (jsLowerChar c).toNat ∧ (jsLowerChar c).toNat ≤ 90) := by
  unfold jsLowerChar
  split
  · rename_i hcond
    have hv : (c.toNat + 32).isValidChar := Or.inl (by omega)
    rw [toNat_ofNat_valid hv]
    omega
  · rename_i hcond
    exact hcond

theorem trimL_eq_nil_iff (l : List Char) : trimL l = [] ↔ ∀ c ∈ l, jsIsWs c = true := by
  unfold trimL
  rw [List.reverse_eq_nil_iff, List.dropWhile_eq_nil_iff]
  constructor
  · intro h c hc
    have hsplit : l.takeWhile jsIsWs ++ l.dropWhile jsIsWs = l :=
      List.takeWhile_append_dropWhile jsIsWs l
    rw [← hsplit] at hc
    rcases List.mem_append.mp hc with h1 | h1
    · exact List.mem_takeWhile_imp h1
    · exact h c (List.mem_reverse.mpr h1)
  · intro h c hc
    exact h c ((List.dropWhile_sublist jsIsWs).subset (List.mem_reverse.mp hc))

theorem collapseWs_eq_nil_iff (l : List Char) : collapseWs l = [] ↔ l = [] := by
  cases l with
  | nil => simp [collapseWs, collapseWsAux]
  | cons c rest =>
    simp only [collapseWs, collapseWsAux]
    by_cases h : jsIsWs c <;> simp [h]

/-- Every character emitted by the whitespace-collapsing pass is either the
replacement hyphen or a non-whitespace character of the input. -/
theorem collapseWsAux_chars (b : Bool) (l : List Char) :
    ∀ c ∈ collapseWsAux b l, c = '-' ∨ (c ∈ l ∧ jsIsWs c = false) := by
  induction l generalizing b with
  | nil => intro c hc; simp [collapseWsAux] at hc
  | cons d rest ih =>
    intro c hc
    simp only [collapseWsAux] at hc
    by_cases hw : jsIsWs d
    · rw [if_pos hw] at hc
      cases b with
      | true =>
        rw [if_pos rfl] at hc
        rcases ih true c hc with h | ⟨hmem, hws⟩
        · exact Or.inl h
        · exact Or.inr ⟨List.mem_cons_of_mem _ hmem, hws⟩
      | false =>
        rw [if_neg (by simp)] at hc
        rcases List.mem_cons.mp hc with he | hrest
        · exact Or.inl he
        · rcases ih true c hrest with h | ⟨hmem, hws⟩
          · exact Or.inl h
          · exact Or.inr ⟨List.mem_cons_of_mem _ hmem, hws⟩
    · rw [if_neg hw] at hc
      rcases List.mem_cons.mp hc with he | hrest
      · subst he
        exact Or.inr ⟨List.mem_cons_self _ _, by
          cases hjs : jsIsWs c
          · rfl
          · exact absurd hjs hw⟩
      · rcases ih false c hrest with h | ⟨hmem, hws⟩
        · exact Or.inl h
        · exact Or.inr ⟨List.mem_cons_of_mem _ hmem, hws⟩

theorem compact_eq_nil_iff (l : List Char) :
    collapseWs ((trimL l).map jsLowerChar) = [] ↔ ∀ c ∈ l, jsIsWs c = true := by
  rw [collapseWs_eq_nil_iff]
  constructor
  · intro h
    exact (trimL_eq_nil_iff l).mp (by simpa using h)
  · intro h
    simp [(trimL_eq_nil_iff l).mpr h]

/-- C7: room-name normalization.  `normalizeRoomName` is invalid exactly when
the input is all-whitespace (so that trimming and collapsing leave nothing);
every valid result starts with `#`, contains no whitespace (each internal run
was collapsed to a hyphen) and no upper-case ASCII letter (everything was
lower-cased); and the client-side copy computes the identical result on every
input, with `""` as its encoding of invalid. -/
theorem c7_room_name_normalization (s : String) :
    (normalizeRoomName s = none ↔ ∀ c ∈ s.data, jsIsWs c = true) ∧
    (∀ r, normalizeRoomName s = some r →
      r.data.head? = some '#' ∧
      (∀ c ∈ r.data, jsIsWs c = false) ∧
      (∀ c ∈ r.data, ¬(65 ≤ c.toNat ∧ c.toNat ≤ 90))) ∧
    (normalizeRoomName s = none ↔ clientNormalizeRoomName s = "") ∧
    (∀ r, normalizeRoomName s = some r → clientNormalizeRoomName s = r) := by
  have hchars : ∀ c ∈ collapseWs ((trimL s.data).map jsLowerChar),
      jsIsWs c = false ∧ ¬(65 ≤ c.toNat ∧ c.toNat ≤ 90) := by
    intro c hcmem
    rcases collapseWsAux_chars false _ c hcmem with hdash | ⟨hmem, hws⟩
    · subst hdash
      exact ⟨by decide, by decide⟩
    · obtain ⟨c', _, rfl⟩ := List.mem_map.mp hmem
      exact ⟨hws, jsLowerChar_not_upper c'⟩
  by_cases hc : collapseWs ((trimL s.data).map jsLowerChar) = []
  · have hNL : normalizeRoomNameL s.data = none := by
      unfold normalizeRoomNameL
      rw [if_pos hc]
    have hN : normalizeRoomName s = none := by
      unfold normalizeRoomName
      rw [hNL]
      rfl
    have hclient : clientNormalizeRoomName s = "" := by
      unfold clientNormalizeRoomName clientNormalizeRoomNameL
      rw [if_pos hc]
    refine ⟨?_, ?_, ?_, ?_⟩
    · rw [hN]
      exact iff_of_true rfl ((compact_eq_nil_iff s.data).mp hc)
    · intro r hr
      rw [hN] at hr
      cases hr
    · rw [hN, hclient]
      simp
    · intro r hr
      rw [hN] at hr
      cases hr
  · have hnotall : ¬ ∀ c ∈ s.data, jsIsWs c = true :=
      fun hall => hc ((compact_eq_nil_iff s.data).mpr hall)
    by_cases hh : (collapseWs ((trimL s.data).map jsLowerChar)).head? = some '#'
    · have hN : normalizeRoomName s =
          some ⟨collapseWs ((trimL s.data).map jsLowerChar)⟩ := by
        unfold normalizeRoomName normalizeRoomNameL
        rw [if_neg hc, if_pos hh]
        rfl
      have hclient : clientNormalizeRoomName s =
          ⟨collapseWs ((trimL s.data).map jsLowerChar)⟩ := by
        unfold clientNormalizeRoomName clientNormalizeRoomNameL
        rw [if_neg hc, if_pos hh]
      refine ⟨?_, ?_, ?_, ?_⟩
      · rw [hN]
        simp [hnotall]
      · intro r hr
        rw [hN] at hr
        cases hr
        exact ⟨hh, fun c hcm => (hchars c hcm).1, fun c hcm => (hchars c hcm).2⟩
      · rw [hN]
        constructor
        · intro habs; cases habs
        · intro habs
          rw [hclient] at habs
          exact absurd (congrArg String.data habs) hc
      · intro r hr
        rw [hN] at hr
        cases hr
        exact hclient
    · have hN : normalizeRoomName s =
          some ⟨'#' :: collapseWs ((trimL s.data).map jsLowerChar)⟩ := by
        unfold normalizeRoomName normalizeRoomNameL
        rw [if_neg hc, if_neg hh]
        rfl
      have hclient : clientNormalizeRoomName s =
          ⟨'#' :: collapseWs ((trimL s.data).map jsLowerChar)⟩ := by
        unfold clientNormalizeRoomName clientNormalizeRoomNameL
        rw [if_neg hc, if_neg hh]
      refine ⟨?_, ?_, ?_, ?_⟩
      · rw [hN]
        simp [hnotall]
      · intro r hr
        rw [hN] at hr
        cases hr
        refine ⟨rfl, ?_, ?_⟩
        · intro c hcm
          rcases List.mem_cons.mp hcm with he | hm
          · subst he; decide
          · exact (hchars c hm).1
        · intro c hcm
          rcases List.mem_cons.mp hcm with he | hm
          · subst he; decide
          · exact (hchars c hm).2
      · rw [hN]
        constructor
        · intro habs; cases habs
        · intro habs
          rw [hclient] at habs
          have := congrArg String.data habs
          simp at this
      · intro r hr
        rw [hN] at hr
        cases hr
        exact hclient

end WsWorkshop
